import Mathlib

/-!
# Verification of the RUNK-MAX event-scheduling engine

This file is a shallow embedding, in Lean 4, of the core of
`RUNK-MAX/runk-max.py`: the `EngineThread` scheduling loop (its movement
planner, event dispatcher and ydotoold daemon supervisor) and the
`normalize_config` configuration normalizer.  The theorems at the end of the
file settle the frozen specification claims C1-C10 against this embedding.

Modelling conventions:

* Randomness (`random.choice`, `random.randint`, `random.random`,
  `random.uniform`) is modelled by an oracle stream `Rng := List ℕ`.
  Every call into the `random` module consumes exactly one element of the
  stream, in program order.  A discrete draw such as `random.randint(1, n)`
  maps the consumed element `x` to `1 + x % n`, so every value of the
  documented range is reachable; uniformity itself is a property of Python's
  library and is outside the embedding.  The coin `random.random() < 0.5`
  and the two-element `random.choice` are modelled by the parity of the
  consumed element.  The value of a `random.uniform(lo, hi)` sleep duration
  is never consulted by control flow, so the sleep is recorded as an event
  carrying its bounds.
* Side effects (status callbacks, subprocess launches, key injection
  commands, sleeps, daemon teardown) are recorded as a trace of events.
* The asynchronously-set `threading.Event` flags `_stop` and `_pause` are
  modelled by a schedule: a list of `(pause, stop)` observations, one entry
  consumed at every point where the loop evaluates a flag condition.  The
  inner `while self._pause.is_set() and not self._stop.is_set()` performs
  its two flag reads back to back; the embedding treats them as one
  observation of the pair.
* Python `float` values that occur here are only copied and compared, never
  computed with, so they are modelled by `ℚ`; IEEE special values
  (`nan`/`inf`) are outside the model.
-/

/-! ## JSON-ish values and dictionaries (for `normalize_config`) -/

/-- A JSON-like Python value as produced by `json.load` and manipulated by
`normalize_config`.  Python distinguishes `int` from `float`
(`isinstance(x, int)` checks in the source depend on it), so the model keeps
separate constructors. -/
inductive JVal where
  | jnull
  | jbool (b : Bool)
  | jint (n : ℤ)
  | jfloat (q : ℚ)
  | jstr (s : String)
  | jarr (l : List JVal)
  | jobj (d : List (String × JVal))

/-- A Python `dict` with string keys, as an insertion-ordered association
list (Python 3.7+ dicts preserve insertion order). -/
abbrev JDict := List (String × JVal)

/-- `d[k]` lookup: first binding of `k`. -/
def dLookup (k : String) : JDict → Option JVal
  | [] => none
  | (k', v) :: rest => if k' = k then some v else dLookup k rest

/-- `d[k] = v`: replace the binding of `k` in place if present (Python dict
assignment keeps the key position), else append at the end. -/
def dUpdate (k : String) (v : JVal) : JDict → JDict
  | [] => [(k, v)]
  | (k', v') :: rest => if k' = k then (k, v) :: rest else (k', v') :: dUpdate k v rest

/-- `d.setdefault(k, v)`: insert `(k, v)` at the end iff `k` is absent. -/
def dSetdefault (k : String) (v : JVal) (d : JDict) : JDict :=
  if (dLookup k d).isSome then d else d ++ [(k, v)]

/-- `d.get(k, default)`. -/
def dGetD (d : JDict) (k : String) (v : JVal) : JVal :=
  (dLookup k d).getD v

theorem dLookup_dUpdate_self (k : String) (v : JVal) (d : JDict) :
    dLookup k (dUpdate k v d) = some v := by
  induction d with
  | nil => simp [dLookup, dUpdate]
  | cons hd tl ih =>
    by_cases h : hd.1 = k
    · simp [dLookup, dUpdate, h]
    · simp [dLookup, dUpdate, h, ih]

theorem dLookup_dUpdate_ne {k k' : String} (h : k' ≠ k) (v : JVal) (d : JDict) :
    dLookup k (dUpdate k' v d) = dLookup k d := by
  induction d with
  | nil => simp [dLookup, dUpdate, h]
  | cons hd tl ih =>
    obtain ⟨a, b⟩ := hd
    by_cases h2 : a = k'
    · subst h2
      simp [dLookup, dUpdate, h]
    · simp only [dUpdate, h2, if_false]
      by_cases h3 : a = k <;> simp [dLookup, h3, ih]

/-- Updating a key with the value it already has is a no-op. -/
theorem dUpdate_self {k : String} {v : JVal} {d : JDict}
    (h : dLookup k d = some v) : dUpdate k v d = d := by
  induction d with
  | nil => simp [dLookup] at h
  | cons hd tl ih =>
    obtain ⟨a, b⟩ := hd
    by_cases h2 : a = k
    · subst h2
      simp [dLookup] at h
      simp [dUpdate, h]
    · simp [dLookup, h2] at h
      simp [dUpdate, h2, ih h]

theorem dLookup_eq_none {k : String} {d : JDict}
    (h : k ∉ d.map Prod.fst) : dLookup k d = none := by
  induction d with
  | nil => simp [dLookup]
  | cons hd tl ih =>
    obtain ⟨a, b⟩ := hd
    simp only [List.map_cons, List.mem_cons, not_or] at h
    have ha : a ≠ k := fun hh => h.1 hh.symm
    simp [dLookup, ha, ih h.2]

theorem dUpdate_absent {k : String} {d : JDict}
    (h : dLookup k d = none) (v : JVal) : dUpdate k v d = d ++ [(k, v)] := by
  induction d with
  | nil => simp [dUpdate]
  | cons hd tl ih =>
    obtain ⟨a, b⟩ := hd
    by_cases h2 : a = k
    · simp [dLookup, h2] at h
    · simp [dLookup, h2] at h
      simp [dUpdate, h2, ih h]

theorem keys_dUpdate (k : String) (v : JVal) (d : JDict) :
    (dUpdate k v d).map Prod.fst =
      if k ∈ d.map Prod.fst then d.map Prod.fst else d.map Prod.fst ++ [k] := by
  induction d with
  | nil => simp [dUpdate]
  | cons hd tl ih =>
    obtain ⟨a, b⟩ := hd
    by_cases h : a = k
    · simp [dUpdate, h]
    · have hk : k ≠ a := fun hh => h hh.symm
      by_cases h2 : k ∈ tl.map Prod.fst <;>
        simp [dUpdate, h, ih, h2, hk]

/-- Python `dict` merge loop `for k, v in cfg.items(): merged[k] = v`. -/
def dMerge (base cfg : JDict) : JDict :=
  cfg.foldl (fun m kv => dUpdate kv.1 kv.2 m) base

theorem dLookup_append_of_none {k : String} {xs : JDict}
    (h : dLookup k xs = none) (ys : JDict) :
    dLookup k (xs ++ ys) = dLookup k ys := by
  induction xs with
  | nil => simp
  | cons hd tl ih =>
    by_cases h2 : hd.1 = k
    · simp [dLookup, h2] at h
    · simp [dLookup, h2] at h ⊢
      exact ih h

theorem dMerge_extras {extras : JDict} {base : JDict}
    (hdisj : ∀ k ∈ extras.map Prod.fst, dLookup k base = none)
    (hnd : (extras.map Prod.fst).Nodup) :
    dMerge base extras = base ++ extras := by
  induction extras generalizing base with
  | nil => simp [dMerge]
  | cons hd tl ih =>
    simp only [List.map_cons, List.nodup_cons] at hnd
    have h1 : dLookup hd.1 base = none := hdisj hd.1 (by simp)
    have step : dUpdate hd.1 hd.2 base = base ++ [hd] := dUpdate_absent h1 hd.2
    have h2 : ∀ k ∈ tl.map Prod.fst, dLookup k (base ++ [hd]) = none := by
      intro k hk
      have hkne : hd.1 ≠ k := fun hcon => hnd.1 (hcon ▸ hk)
      rw [dLookup_append_of_none (hdisj k (by simp [hk]))]
      simp [dLookup, hkne]
    have : dMerge base (hd :: tl) = dMerge (base ++ [hd]) tl := by
      simp [dMerge, step]
    rw [this, ih h2 hnd.2]
    simp

/-! ## Engine configuration (as read by `EngineThread._run`) -/

/-- One entry of `config["keys"]`: `{code, enabled}` (the label is not read
by the engine). -/
structure KeyCfg where
  code : ℕ
  enabled : Bool
deriving DecidableEq, Repr

/-- The fields of the configuration dict that `EngineThread._run` reads.
Delays and press/idle durations are Python floats, modelled by `ℚ`. -/
structure Cfg where
  keyW : KeyCfg
  keyA : KeyCfg
  keyS : KeyCfg
  keyD : KeyCfg
  enable_diagonals : Bool
  min_delay : ℚ
  max_delay : ℚ
  press_min : ℚ
  press_max : ℚ
  idle_enabled : Bool
  idle_chance : ℤ
  idle_min : ℚ
  idle_max : ℚ
  double_tap_enabled : Bool
  double_tap_chance : ℤ
deriving DecidableEq, Repr

/-- `len({k: v for k, v in config["keys"].items() if v.get("enabled")})`. -/
def enabledCount (c : Cfg) : ℕ :=
  (if c.keyW.enabled then 1 else 0) + (if c.keyA.enabled then 1 else 0) +
  (if c.keyS.enabled then 1 else 0) + (if c.keyD.enabled then 1 else 0)

/-- `[config["keys"][k]["code"] for k in ("W", "S") if config["keys"][k]["enabled"]]`. -/
def vertCodes (c : Cfg) : List ℕ :=
  (if c.keyW.enabled then [c.keyW.code] else []) ++
  (if c.keyS.enabled then [c.keyS.code] else [])

/-- `[config["keys"][k]["code"] for k in ("A", "D") if config["keys"][k]["enabled"]]`. -/
def horizCodes (c : Cfg) : List ℕ :=
  (if c.keyA.enabled then [c.keyA.code] else []) ++
  (if c.keyD.enabled then [c.keyD.code] else [])

/-- Line 308: `bool(config.get("enable_diagonals", True)) and (len(vert) > 0 and len(horiz) > 0)`. -/
def enableDiag (c : Cfg) : Bool :=
  c.enable_diagonals && (!(vertCodes c).isEmpty && !(horizCodes c).isEmpty)

/-! ## Randomness oracle -/

/-- Oracle stream standing in for Python's global `random` generator.  Every
call into the `random` module consumes one element. -/
abbrev Rng := List ℕ

def rhead (r : Rng) : ℕ := r.headD 0

def rtail (r : Rng) : Rng := r.tail

/-- `random.randint(1, n)` for `n ≥ 1`: one draw, value in `[1, n]`, every
value reachable as the oracle element varies. -/
def randint1 (n : ℕ) (r : Rng) : ℕ := 1 + rhead r % n

/-- `random.choice(l)` for a nonempty list: one draw selecting an index. -/
def choiceNat (l : List ℕ) (r : Rng) : ℕ := l.getD (rhead r % l.length) 0

/-! ## Event traces -/

/-- Observable actions of one engine run. -/
inductive Ev where
  /-- `GLib.idle_add(on_status, s)`: one status-callback delivery. -/
  | report (s : String)
  /-- A call to `EngineThread._ensure_ydotoold`. -/
  | ensure
  /-- `subprocess.Popen(["ydotoold", --socket-path=sock, --socket-own=uid:gid])`. -/
  | launch (sock : String) (uid gid : ℕ)
  /-- best-effort `os.remove(sock)`. -/
  | rmSocket (sock : String)
  /-- A call to `maybe_double(code)` (one dispatch of a planned key). -/
  | dispatch (code : ℕ)
  /-- `ydotool key code:1`. -/
  | keyDown (code : ℕ)
  /-- `ydotool key code:0`. -/
  | keyUp (code : ℕ)
  /-- `time.sleep(random.uniform(lo, hi))`. -/
  | sleepU (lo hi : ℚ)
  /-- `time.sleep(d)` with a fixed duration. -/
  | sleepFixed (d : ℚ)
  /-- A call to `EngineThread._stop_ydotoold` (supervisor teardown). -/
  | teardown
  /-- `self.ydotoold_proc.terminate()` (graceful daemon kill). -/
  | terminate
  /-- `threading.Thread(...).start()`. -/
  | spawnThread
deriving DecidableEq, Repr

abbrev Trace := List Ev

/-! ## Event dispatcher (`press_key`, `maybe_double`, lines 333-352) -/

/-- `press_key(code)`: key down, uniform hold in `[press_min, press_max]`
(one `random.uniform` draw), key up.  Failures of the `ydotool` subprocess
are swallowed by the source (`DEVNULL`, exit status ignored) and are not
modelled as events. -/
def press_key (c : Cfg) (code : ℕ) (r : Rng) : Trace × Rng :=
  ([Ev.keyDown code, Ev.sleepU c.press_min c.press_max, Ev.keyUp code], rtail r)

/-- `maybe_double(code)`, lines 348-352.  Note the short-circuit: the
`random.randint` draw happens only when `double_enabled` is truthy. -/
def maybe_double (c : Cfg) (code : ℕ) (r : Rng) : Trace × Rng :=
  let p1 := press_key c code r
  if c.double_tap_enabled then
    let d := randint1 (max 2 c.double_tap_chance).toNat p1.2
    let r2 := rtail p1.2
    if d = 1 then
      let p2 := press_key c code (rtail r2)
      (p1.1 ++ [Ev.sleepU (3/100) (3/25)] ++ p2.1, p2.2)
    else (p1.1, r2)
  else (p1.1, p1.2)

/-! ## Movement planner (lines 372-393) -/

/-- The local decision variables of one planning step: `move_type`,
`axis` and `keys`. -/
structure Plan where
  isDiag : Bool
  axisVert : Bool
  keys : List ℕ
deriving DecidableEq, Repr

/-- Lines 376-393: the `else` branch (axis move). -/
def axisMove (vert horiz : List ℕ) (r : Rng) : Plan × Rng :=
  let av : Bool × Rng :=
    if !vert.isEmpty && !horiz.isEmpty then (rhead r % 2 = 0, rtail r)
    else if !vert.isEmpty then (true, r)
    else (false, r)
  let ax := if av.1 then vert else horiz
  let first := choiceNat ax av.2
  let r2 := rtail av.2
  let opp := ax.filter (fun cde => cde ≠ first)
  ({ isDiag := false, axisVert := av.1, keys := [first, opp.headD first] }, r2)

/-- Lines 372-393: `move_type = random.choice(["axis", "diag"]) if enable_diag
else "axis"`, then the diagonal or axis branch.  Index parity 1 selects
`"diag"`. -/
def planMove (ediag : Bool) (vert horiz : List ℕ) (r : Rng) : Plan × Rng :=
  if ediag then
    let isDiag := rhead r % 2 = 1
    let r1 := rtail r
    if isDiag then
      let k1 := choiceNat vert r1
      let r2 := rtail r1
      let k2 := choiceNat horiz r2
      ({ isDiag := true, axisVert := false, keys := [k1, k2] }, rtail r2)
    else axisMove vert horiz r1
  else axisMove vert horiz r
/-! ## Daemon supervisor (`_ensure_ydotoold` / `_stop_ydotoold`, lines 408-463) -/

/-- The process environment consulted by `_ensure_ydotoold`, plus the two
external world conditions the specification talks about: whether launching
`ydotoold` can succeed (the executable exists), and whether a compatible
injection daemon is already running for this user.  The source never
inspects the latter (there is no liveness probe anywhere in
`runk-max.py`); the field exists so that claims about that situation can be
stated. -/
structure Env where
  xdgRuntimeDir : Option String
  home : String
  pid : ℕ
  uid : ℕ
  gid : ℕ
  ydotooldLaunchOk : Bool
  compatibleDaemonRunning : Bool
deriving DecidableEq, Repr

/-- The supervisor-owned mutable fields of `EngineThread`:
`ydotoold_proc` (`some alive` = a `Popen` handle whose `poll()` is `None`
iff `alive`), `socket_path`, `started_ydotoold`. -/
structure DState where
  ydotoold_proc : Option Bool
  socket_path : Option String
  started_ydotoold : Bool
deriving DecidableEq, Repr

/-- Fresh `EngineThread.__init__` supervisor state. -/
def dInit : DState := ⟨none, none, false⟩

/-- Lines 410-415: derivation of the private socket path (pid-unique). -/
def socketPathOf (env : Env) : String :=
  match env.xdgRuntimeDir with
  | some x => x ++ "/ydotool-runk-" ++ toString env.pid ++ ".sock"
  | none => env.home ++ "/.ydotool_runk_socket_" ++ toString env.pid

/-- `_ensure_ydotoold` (lines 408-442): derive the socket path, best-effort
remove any stale socket, launch a fresh `ydotoold` bound to it and owned by
the current uid:gid, sleep a fixed 0.25 s settle interval, return `True`;
return `False` when the launch raises (executable missing).  Returns
`(success, newState, events)`. -/
def ensure_ydotoold (env : Env) (s : DState) : Bool × DState × Trace :=
  let sock := socketPathOf env
  let s1 : DState := { s with socket_path := some sock }
  if env.ydotooldLaunchOk then
    (true,
     { s1 with ydotoold_proc := some true, started_ydotoold := true },
     [Ev.rmSocket sock, Ev.launch sock env.uid env.gid, Ev.sleepFixed (1/4)])
  else (false, s1, [Ev.rmSocket sock])

/-- `_stop_ydotoold` (lines 444-463): if a live owned process handle exists,
terminate it (graceful wait; the timed force-kill fallback is folded into the
single `terminate` event), drop the handle, best-effort remove the socket if
this run started the daemon, clear `started_ydotoold`.  The leading
`Ev.teardown` marker records the invocation itself. -/
def stop_ydotoold (s : DState) : DState × Trace :=
  let ev1 : Trace := if s.ydotoold_proc = some true then [Ev.terminate] else []
  let s1 : DState := { s with ydotoold_proc := none }
  let ev2 : Trace :=
    if s1.started_ydotoold then
      match s1.socket_path with
      | some sock => [Ev.rmSocket sock]
      | none => []
    else []
  (({ s1 with started_ydotoold := false }), Ev.teardown :: ev1 ++ ev2)

/-! ## Scheduling loop (lines 354-406) -/

/-- A schedule of flag observations: each entry is the value of
`(self._pause.is_set(), self._stop.is_set())` at one condition-evaluation
point of the loop. -/
abbrev Sched := List (Bool × Bool)

/-- Where the loop is about to evaluate a flag condition: the outer
`while not self._stop.is_set()`, the inner pause-poll
`while self._pause.is_set() and not self._stop.is_set()`, or the
`if self._stop.is_set(): break` right after the inner loop. -/
inductive Phase where
  | outer
  | inner
  | postInner
deriving DecidableEq, Repr

/-- One `for code in keys: maybe_double(code)` pass; each `maybe_double`
call is additionally marked by `Ev.dispatch code`. -/
def dispatchPass (c : Cfg) : List ℕ → Rng → Trace × Rng
  | [], r => ([], r)
  | code :: ks, r =>
      let p := maybe_double c code r
      let rest := dispatchPass c ks p.2
      (Ev.dispatch code :: p.1 ++ rest.1, rest.2)

/-- Line 369: `if idle_enabled and random.randint(1, max(2, idle_chance)) == 1:
time.sleep(random.uniform(idle_min, idle_max))`; the draw happens only when
`idle_enabled` is truthy (short-circuit), and the uniform sleep duration
consumes one further draw. -/
def idleStep (c : Cfg) (r : Rng) : Trace × Rng :=
  if c.idle_enabled then
    let d := randint1 (max 2 c.idle_chance).toNat r
    let r1 := rtail r
    if d = 1 then ([Ev.sleepU c.idle_min c.idle_max], rtail r1) else ([], r1)
  else ([], r)

/-- Lines 369-403 continued: plan the move after the idle gap, coin-flip the
reversal, run the forward and reverse dispatch passes, inter-cycle sleep. -/
def cycleBody (c : Cfg) (vert horiz : List ℕ) (ediag : Bool) (r : Rng) : Trace × Rng :=
  let idle := idleStep c r
  let pm := planMove ediag vert horiz idle.2
  let rev : Bool := rhead pm.2 % 2 = 0
  let r3 := rtail pm.2
  let keysF := if rev then pm.1.keys.reverse else pm.1.keys
  let fwd := dispatchPass c keysF r3
  let bwd := dispatchPass c keysF.reverse fwd.2
  (idle.1 ++ fwd.1 ++ bwd.1 ++ [Ev.sleepU c.min_delay c.max_delay], bwd.2)

/-- The `while not self._stop.is_set(): ...` loop of `_run` (lines 354-403),
driven by a schedule of flag observations.  Returns the trace emitted inside
the loop and whether the loop exited (`true`) or the schedule ran out with
the loop still going (`false`).  The `Bool` state argument is
`paused_reported`. -/
def loopGo (c : Cfg) (vert horiz : List ℕ) (ediag : Bool) :
    Sched → Phase → Rng → Bool → Trace × Bool
  | [], _, _, _ => ([], false)
  | ob :: rest, Phase.outer, r, pr =>
      if ob.2 then ([], true)
      else loopGo c vert horiz ediag rest Phase.inner r pr
  | ob :: rest, Phase.inner, r, pr =>
      if ob.1 && !ob.2 then
        let t := loopGo c vert horiz ediag rest Phase.inner r true
        ((if pr then [] else [Ev.report "Paused"]) ++ Ev.sleepFixed (3/20) :: t.1, t.2)
      else loopGo c vert horiz ediag rest Phase.postInner r pr
  | ob :: rest, Phase.postInner, r, pr =>
      if ob.2 then ([], true)
      else
        let cb := cycleBody c vert horiz ediag r
        let t := loopGo c vert horiz ediag rest Phase.outer cb.2 false
        (Ev.report "Running" :: cb.1 ++ t.1, t.2)

/-- `EngineThread._run(config, on_status)` (lines 297-406), as a function of
the configuration, the environment, the flag schedule and the randomness
oracle.  Returns the thread's trace, the final supervisor state and whether
the thread function returned (`false` = the schedule was exhausted with the
loop still running). -/
def runThread (c : Cfg) (env : Env) (sched : Sched) (r : Rng) :
    Trace × DState × Bool :=
  if enabledCount c < 2 then
    ([Ev.report "Stopped: enable at least 2 keys"], dInit, true)
  else
    let e := ensure_ydotoold env dInit
    if e.1 then
      let lp := loopGo c (vertCodes c) (horizCodes c) (enableDiag c)
                  sched Phase.outer r false
      if lp.2 then
        let st := stop_ydotoold e.2.1
        (Ev.ensure :: e.2.2 ++ Ev.report "Running" :: lp.1 ++
           Ev.report "Stopped" :: st.2,
         st.1, true)
      else (Ev.ensure :: e.2.2 ++ Ev.report "Running" :: lp.1, e.2.1, false)
    else
      (Ev.ensure :: e.2.2 ++ [Ev.report "Stopped: ydotoold missing or failed"],
       e.2.1, true)

/-! ## Engine controller (`start` / `stop`, lines 275-289) -/

/-- The controller-visible state of an `EngineThread` object: whether a live
run thread exists, the two signalling flags and the supervisor state. -/
structure CState where
  threadAlive : Bool
  stopFlag : Bool
  pauseFlag : Bool
  daemon : DState
deriving DecidableEq, Repr

/-- `EngineThread.start(config, on_status)` (lines 275-281): return
immediately when a live thread exists, else clear both flags and spawn the
run thread. -/
def startFn (s : CState) : CState × Trace :=
  if s.threadAlive then (s, [])
  else ({ s with stopFlag := false, pauseFlag := false, threadAlive := true },
        [Ev.spawnThread])

/-- `EngineThread.stop()` followed by a thread that already ran to
completion: the full observable trace of one run that the user stops.
`stop` sets `_stop`, clears `_pause`, joins the thread (assumed here to have
returned, which is the hypothesis `(runThread ...).2.2 = true` in the
theorems below), then calls `_stop_ydotoold` unconditionally (line 289). -/
def fullRun (c : Cfg) (env : Env) (sched : Sched) (r : Rng) : Trace × DState :=
  let t := runThread c env sched r
  let st := stop_ydotoold t.2.1
  (t.1 ++ st.2, st.1)

/-- Number of supervisor-teardown invocations in a trace. -/
def teardownCount (t : Trace) : ℕ := t.count Ev.teardown
/-! ## `normalize_config` (lines 103-164)

Python-coercion helpers `b`, `f`, `i`, `s` and the normalizer itself.
`deepcopy` is the identity under the value semantics of `JDict`.  The only
uncaught exception `normalize_config` can raise is the `TypeError` from
treating a non-dict `merged["keys"]` as a dict (any non-dict value there
makes one of `k not in merged["keys"]` / `merged["keys"][k]` raise on the
first loop iteration); this is modelled as `Except.error ()`. -/

/-- Truncation toward zero: Python `int(float)`. -/
def ratTrunc (q : ℚ) : ℤ := q.num.tdiv q.den

def stripSpaces (s : String) : List Char :=
  ((s.toList.dropWhile (fun ch => ch = ' ')).reverse.dropWhile (fun ch => ch = ' ')).reverse

def digitsVal (l : List Char) : ℕ :=
  l.foldl (fun a ch => 10 * a + (ch.toNat - 48)) 0

def parseSign : List Char → Bool × List Char
  | '-' :: rest => (true, rest)
  | '+' :: rest => (false, rest)
  | l => (false, l)

/-- Python `int(str)` on a simple decimal literal (whitespace and sign
handled; underscores and non-decimal bases are outside the model). -/
def parsePyInt (s : String) : Option ℤ :=
  let sg := parseSign (stripSpaces s)
  if !sg.2.isEmpty && sg.2.all Char.isDigit then
    some ((if sg.1 then -1 else 1) * (digitsVal sg.2 : ℤ))
  else none

def parseExpPart (mant : ℚ) : List Char → Option ℚ
  | [] => some mant
  | 'e' :: rest =>
      let sg := parseSign rest
      if !sg.2.isEmpty && sg.2.all Char.isDigit then
        some (if sg.1 then mant / 10 ^ digitsVal sg.2 else mant * 10 ^ digitsVal sg.2)
      else none
  | 'E' :: rest =>
      let sg := parseSign rest
      if !sg.2.isEmpty && sg.2.all Char.isDigit then
        some (if sg.1 then mant / 10 ^ digitsVal sg.2 else mant * 10 ^ digitsVal sg.2)
      else none
  | _ => none

/-- Python `float(str)` on a simple decimal literal with optional fraction
and exponent (`inf`/`nan`/underscores are outside the `ℚ` model). -/
def parsePyFloat (s : String) : Option ℚ :=
  let sg := parseSign (stripSpaces s)
  let ip := sg.2.takeWhile Char.isDigit
  let rest1 := sg.2.dropWhile Char.isDigit
  let sgn : ℚ := if sg.1 then -1 else 1
  match rest1 with
  | '.' :: rest2 =>
      let fp := rest2.takeWhile Char.isDigit
      let rest3 := rest2.dropWhile Char.isDigit
      if ip.isEmpty && fp.isEmpty then none
      else
        (parseExpPart ((digitsVal ip : ℚ) + (digitsVal fp : ℚ) / 10 ^ fp.length)
          rest3).map (fun q => sgn * q)
  | _ =>
      if ip.isEmpty then none
      else (parseExpPart (digitsVal ip : ℚ) rest1).map (fun q => sgn * q)

/-- `def b(x, default=False): return bool(x) if isinstance(x, (bool, int)) else default`. -/
def pyB (v : JVal) (d : Bool) : Bool :=
  match v with
  | JVal.jbool b => b
  | JVal.jint n => n ≠ 0
  | _ => d

/-- `def f(x, default=0.0): try: return float(x) except: return default`.
`float` accepts floats, ints, bools and numeric strings. -/
def pyF (v : JVal) (d : ℚ) : ℚ :=
  match v with
  | JVal.jfloat q => q
  | JVal.jint n => (n : ℚ)
  | JVal.jbool b => if b then 1 else 0
  | JVal.jstr s => (parsePyFloat s).getD d
  | _ => d

/-- `def i(x, default=0): try: return int(x) except: return default`. -/
def pyI (v : JVal) (d : ℤ) : ℤ :=
  match v with
  | JVal.jint n => n
  | JVal.jfloat q => ratTrunc q
  | JVal.jbool b => if b then 1 else 0
  | JVal.jstr s => (parsePyInt s).getD d
  | _ => d

/-- `def s(x, default=""): return str(x) if isinstance(x, (str, int, float, bool)) else default`.
(`toString` on `ℚ` approximates Python float repr; labels are never read
back numerically.) -/
def pyS (v : JVal) (d : String) : String :=
  match v with
  | JVal.jstr s => s
  | JVal.jint n => toString n
  | JVal.jfloat q => toString q
  | JVal.jbool b => if b then "True" else "False"
  | _ => d

/-- `fallback["keys"]` (Python raises `KeyError` if absent; modelled as
`jnull`, which then makes the normalizer error out — the claims only use the
well-formed `DEFAULT_CONFIG` fallback). -/
def fbKeysVal (fb : JDict) : JVal := (dLookup "keys" fb).getD JVal.jnull

/-- `fallback["keys"][k]`. -/
def fbKeyObjVal (fb : JDict) (k : String) : JVal :=
  match fbKeysVal fb with
  | JVal.jobj kd => (dLookup k kd).getD JVal.jnull
  | _ => JVal.jnull

/-- `fallback["keys"][k][f]`. -/
def fbKeyField (fb : JDict) (k f : String) : JVal :=
  match fbKeyObjVal fb k with
  | JVal.jobj ikd => (dLookup f ikd).getD JVal.jnull
  | _ => JVal.jnull

/-- `fallback["keys"][k].get("label", k)`. -/
def fbKeyLabel (fb : JDict) (k : String) : JVal :=
  match fbKeyObjVal fb k with
  | JVal.jobj ikd => dGetD ikd "label" (JVal.jstr k)
  | _ => JVal.jstr k

/-- `fallback["keys"][k]["code"]` as the integer default of `i` (the
`DEFAULT_CONFIG` codes are ints). -/
def fbCodeInt (fb : JDict) (k : String) : ℤ :=
  match fbKeyField fb k "code" with
  | JVal.jint n => n
  | _ => 0

def wasd : List String := ["W", "A", "S", "D"]

/-- Lines 110-115: repair one direction entry of `merged["keys"]` (replace a
missing/non-dict entry by the fallback entry, then `setdefault` the three
fields on it).  The source writes the fallback entry and re-reads it before
the `setdefault`s; here the re-read is inlined (writing the same key twice
equals writing it once), so each branch `setdefault`s the dict it is about
to store.  A non-dict fallback entry (impossible for `DEFAULT_CONFIG`, a
`TypeError` in Python) is stored unchanged. -/
def fixKey (fb : JDict) (kd : JDict) (k : String) : JDict :=
  match dLookup k kd with
  | some (JVal.jobj ikd) =>
      dUpdate k (JVal.jobj (dSetdefault "label" (fbKeyLabel fb k)
        (dSetdefault "enabled" (fbKeyField fb k "enabled")
          (dSetdefault "code" (fbKeyField fb k "code") ikd)))) kd
  | _ =>
      match fbKeyObjVal fb k with
      | JVal.jobj fkd =>
          dUpdate k (JVal.jobj (dSetdefault "label" (fbKeyLabel fb k)
            (dSetdefault "enabled" (fbKeyField fb k "enabled")
              (dSetdefault "code" (fbKeyField fb k "code") fkd)))) kd
      | v => dUpdate k v kd

/-- Lines 147-153: coerce the three fields of one direction entry. -/
def coerceKey (fb : JDict) (kd : JDict) (k : String) : JDict :=
  match dLookup k kd with
  | some (JVal.jobj ikd) =>
      let ikd := dUpdate "enabled"
        (JVal.jbool (pyB (dGetD ikd "enabled" (JVal.jbool true)) true)) ikd
      let ikd := dUpdate "code"
        (JVal.jint (pyI (dGetD ikd "code" (fbKeyField fb k "code")) (fbCodeInt fb k))) ikd
      let ikd := dUpdate "label"
        (JVal.jstr (pyS (dGetD ikd "label" (JVal.jstr k)) k)) ikd
      dUpdate k (JVal.jobj ikd) kd
  | _ => kd

/-- Lines 135-145: the eleven scalar-field coercions. -/
def topCoerce (m0 : JDict) : JDict :=
  let m := dUpdate "enable_diagonals"
    (JVal.jbool (pyB (dGetD m0 "enable_diagonals" (JVal.jbool true)) true)) m0
  let m := dUpdate "min_delay"
    (JVal.jfloat (pyF (dGetD m "min_delay" (JVal.jfloat (1/4))) (1/4))) m
  let m := dUpdate "max_delay"
    (JVal.jfloat (pyF (dGetD m "max_delay" (JVal.jfloat (9/10))) (9/10))) m
  let m := dUpdate "press_min"
    (JVal.jfloat (pyF (dGetD m "press_min" (JVal.jfloat (3/50))) (3/50))) m
  let m := dUpdate "press_max"
    (JVal.jfloat (pyF (dGetD m "press_max" (JVal.jfloat (1/5))) (1/5))) m
  let m := dUpdate "idle_enabled"
    (JVal.jbool (pyB (dGetD m "idle_enabled" (JVal.jbool true)) true)) m
  let m := dUpdate "idle_chance"
    (JVal.jint (pyI (dGetD m "idle_chance" (JVal.jint 10)) 10)) m
  let m := dUpdate "idle_min"
    (JVal.jfloat (pyF (dGetD m "idle_min" (JVal.jfloat 1)) 1)) m
  let m := dUpdate "idle_max"
    (JVal.jfloat (pyF (dGetD m "idle_max" (JVal.jfloat (7/2))) (7/2))) m
  let m := dUpdate "double_tap_enabled"
    (JVal.jbool (pyB (dGetD m "double_tap_enabled" (JVal.jbool true)) true)) m
  dUpdate "double_tap_chance"
    (JVal.jint (pyI (dGetD m "double_tap_chance" (JVal.jint 8)) 8)) m

/-- Lines 155-160: `if merged[hi] < merged[lo]: merged[hi] = merged[lo]`.
At this point both fields always hold floats (just stored by `topCoerce`);
the catch-all arm is unreachable. -/
def clampPair (lo hi : String) (m : JDict) : JDict :=
  match dLookup hi m, dLookup lo m with
  | some (JVal.jfloat b), some (JVal.jfloat a) =>
      if b < a then dUpdate hi (JVal.jfloat a) m else m
  | _, _ => m

/-- Lines 162-163: `merged[f] = max(2, merged[f])` (an int at this point). -/
def clampChance (f : String) (m : JDict) : JDict :=
  match dLookup f m with
  | some (JVal.jint n) => dUpdate f (JVal.jint (max 2 n)) m
  | _ => m

/-- `normalize_config(cfg, fallback)` (lines 103-164), phase for phase:
merge `cfg` over a copy of `fallback`, `setdefault` the `"keys"` entry,
repair the four direction entries, coerce the scalar fields, coerce the
direction entries, clamp the three range pairs and the two chance fields.
Python's in-place mutation of `merged["keys"]` is flattened into reading the
entry, transforming it and writing it back. -/
def normalize_config (cfg fallback : JDict) : Except Unit JDict :=
  let merged := dMerge fallback cfg
  let merged := dSetdefault "keys" (fbKeysVal fallback) merged
  match dLookup "keys" merged with
  | some (JVal.jobj kd0) =>
      let kd1 := wasd.foldl (fixKey fallback) kd0
      let m1 := dUpdate "keys" (JVal.jobj kd1) merged
      let m2 := topCoerce m1
      let kd2 := wasd.foldl (coerceKey fallback) kd1
      let m3 := dUpdate "keys" (JVal.jobj kd2) m2
      let m4 := clampPair "min_delay" "max_delay" m3
      let m5 := clampPair "press_min" "press_max" m4
      let m6 := clampPair "idle_min" "idle_max" m5
      let m7 := clampChance "idle_chance" m6
      let m8 := clampChance "double_tap_chance" m7
      Except.ok m8
  | _ => Except.error ()

/-- `DEFAULT_CONFIG` (lines 43-61). -/
def DEFAULT_CONFIG : JDict :=
  [("keys", JVal.jobj
     [("W", JVal.jobj [("code", JVal.jint 17), ("enabled", JVal.jbool true),
        ("label", JVal.jstr "W")]),
      ("A", JVal.jobj [("code", JVal.jint 30), ("enabled", JVal.jbool true),
        ("label", JVal.jstr "A")]),
      ("S", JVal.jobj [("code", JVal.jint 31), ("enabled", JVal.jbool true),
        ("label", JVal.jstr "S")]),
      ("D", JVal.jobj [("code", JVal.jint 32), ("enabled", JVal.jbool true),
        ("label", JVal.jstr "D")])]),
   ("enable_diagonals", JVal.jbool true),
   ("min_delay", JVal.jfloat (1/4)),
   ("max_delay", JVal.jfloat (9/10)),
   ("press_min", JVal.jfloat (3/50)),
   ("press_max", JVal.jfloat (1/5)),
   ("idle_enabled", JVal.jbool true),
   ("idle_chance", JVal.jint 10),
   ("idle_min", JVal.jfloat 1),
   ("idle_max", JVal.jfloat (7/2)),
   ("double_tap_enabled", JVal.jbool true),
   ("double_tap_chance", JVal.jint 8)]

/-- The twelve top-level keys of `DEFAULT_CONFIG`, in insertion order. -/
def topNames : List String :=
  ["keys", "enable_diagonals", "min_delay", "max_delay", "press_min",
   "press_max", "idle_enabled", "idle_chance", "idle_min", "idle_max",
   "double_tap_enabled", "double_tap_chance"]
/-! ## Trace projections -/

/-- The status strings delivered to the `on_status` callback, in order. -/
def reportsOf (t : Trace) : List String :=
  t.filterMap (fun e => match e with | Ev.report s => some s | _ => none)

/-- The key codes passed to `maybe_double`, in dispatch order. -/
def dispatchSeq (t : Trace) : List ℕ :=
  t.filterMap (fun e => match e with | Ev.dispatch k => some k | _ => none)

/-- Is a status string one of the terminal stop reports of `_run`? -/
def isStopReport (s : String) : Bool :=
  s = "Stopped" || s = "Stopped: enable at least 2 keys" ||
    s = "Stopped: ydotoold missing or failed"

theorem reportsOf_append (t u : Trace) :
    reportsOf (t ++ u) = reportsOf t ++ reportsOf u := by
  simp [reportsOf]

theorem dispatchSeq_append (t u : Trace) :
    dispatchSeq (t ++ u) = dispatchSeq t ++ dispatchSeq u := by
  simp [dispatchSeq]

/-- `maybe_double` emits either one plain press or press-pause-press. -/
theorem maybe_double_shape (c : Cfg) (code : ℕ) (r : Rng) :
    (maybe_double c code r).1 =
      [Ev.keyDown code, Ev.sleepU c.press_min c.press_max, Ev.keyUp code] ∨
    (maybe_double c code r).1 =
      [Ev.keyDown code, Ev.sleepU c.press_min c.press_max, Ev.keyUp code,
       Ev.sleepU (3/100) (3/25),
       Ev.keyDown code, Ev.sleepU c.press_min c.press_max, Ev.keyUp code] := by
  by_cases h : c.double_tap_enabled
  · by_cases h2 : randint1 (max 2 c.double_tap_chance).toNat (rtail r) = 1
    · right
      simp [maybe_double, press_key, h, h2]
    · left
      simp [maybe_double, press_key, h, h2]
  · left
    simp [maybe_double, press_key, h]

theorem reportsOf_maybe_double (c : Cfg) (code : ℕ) (r : Rng) :
    reportsOf (maybe_double c code r).1 = [] := by
  rcases maybe_double_shape c code r with h | h <;> rw [h] <;> simp [reportsOf]

theorem dispatchSeq_maybe_double (c : Cfg) (code : ℕ) (r : Rng) :
    dispatchSeq (maybe_double c code r).1 = [] := by
  rcases maybe_double_shape c code r with h | h <;> rw [h] <;> simp [dispatchSeq]

theorem no_teardown_maybe_double (c : Cfg) (code : ℕ) (r : Rng) :
    Ev.teardown ∉ (maybe_double c code r).1 := by
  rcases maybe_double_shape c code r with h | h <;> rw [h] <;> simp

theorem dispatchPass_cons (c : Cfg) (k : ℕ) (ks : List ℕ) (r : Rng) :
    (dispatchPass c (k :: ks) r).1 =
      Ev.dispatch k :: (maybe_double c k r).1 ++
        (dispatchPass c ks (maybe_double c k r).2).1 := by
  simp [dispatchPass]

/-- A dispatch pass emits exactly its argument codes as `dispatch` marks. -/
theorem dispatchSeq_dispatchPass (c : Cfg) (ks : List ℕ) (r : Rng) :
    dispatchSeq (dispatchPass c ks r).1 = ks := by
  induction ks generalizing r with
  | nil => simp [dispatchPass, dispatchSeq]
  | cons k ks ih =>
    rw [dispatchPass_cons]
    have : Ev.dispatch k :: (maybe_double c k r).1 ++
        (dispatchPass c ks (maybe_double c k r).2).1 =
        [Ev.dispatch k] ++ (maybe_double c k r).1 ++
        (dispatchPass c ks (maybe_double c k r).2).1 := by simp
    rw [this, dispatchSeq_append, dispatchSeq_append, dispatchSeq_maybe_double, ih]
    simp [dispatchSeq]

theorem reportsOf_dispatchPass (c : Cfg) (ks : List ℕ) (r : Rng) :
    reportsOf (dispatchPass c ks r).1 = [] := by
  induction ks generalizing r with
  | nil => simp [dispatchPass, reportsOf]
  | cons k ks ih =>
    rw [dispatchPass_cons]
    have : Ev.dispatch k :: (maybe_double c k r).1 ++
        (dispatchPass c ks (maybe_double c k r).2).1 =
        [Ev.dispatch k] ++ (maybe_double c k r).1 ++
        (dispatchPass c ks (maybe_double c k r).2).1 := by simp
    rw [this, reportsOf_append, reportsOf_append, reportsOf_maybe_double, ih]
    simp [reportsOf]

theorem no_teardown_dispatchPass (c : Cfg) (ks : List ℕ) (r : Rng) :
    Ev.teardown ∉ (dispatchPass c ks r).1 := by
  induction ks generalizing r with
  | nil => simp [dispatchPass]
  | cons k ks ih =>
    rw [dispatchPass_cons]
    intro hm
    rcases List.mem_cons.mp hm with h1 | h2
    · cases h1
    · rcases List.mem_append.mp h2 with h3 | h4
      · exact no_teardown_maybe_double c k r h3
      · exact ih _ h4
theorem planMove_keys_length (ediag : Bool) (vert horiz : List ℕ) (r : Rng) :
    (planMove ediag vert horiz r).1.keys.length = 2 := by
  unfold planMove axisMove
  by_cases h : ediag <;> by_cases h2 : rhead r % 2 = 1 <;> simp [h, h2]

theorem idleStep_shape (c : Cfg) (r : Rng) :
    (idleStep c r).1 = [] ∨ (idleStep c r).1 = [Ev.sleepU c.idle_min c.idle_max] := by
  unfold idleStep
  by_cases h : c.idle_enabled
  · by_cases h2 : randint1 (max 2 c.idle_chance).toNat r = 1 <;> simp [h, h2]
  · simp [h]

theorem dispatchSeq_idleStep (c : Cfg) (r : Rng) :
    dispatchSeq (idleStep c r).1 = [] := by
  rcases idleStep_shape c r with h | h <;> rw [h] <;> simp [dispatchSeq]

theorem reportsOf_idleStep (c : Cfg) (r : Rng) :
    reportsOf (idleStep c r).1 = [] := by
  rcases idleStep_shape c r with h | h <;> rw [h] <;> simp [reportsOf]

theorem no_teardown_idleStep (c : Cfg) (r : Rng) :
    Ev.teardown ∉ (idleStep c r).1 := by
  rcases idleStep_shape c r with h | h <;> rw [h] <;> simp

/-- The sequence passed to the two dispatch loops of one cycle: the planned
pair, reversed when the coin (line 395) came up. -/
def cycleKeysF (c : Cfg) (vert horiz : List ℕ) (ediag : Bool) (r : Rng) : List ℕ :=
  let pm := planMove ediag vert horiz (idleStep c r).2
  if rhead pm.2 % 2 = 0 then pm.1.keys.reverse else pm.1.keys

/-- One cycle dispatches exactly the (possibly reversed) planned pair
forward, then the same pair backward. -/
theorem dispatchSeq_cycleBody (c : Cfg) (vert horiz : List ℕ) (ediag : Bool) (r : Rng) :
    dispatchSeq (cycleBody c vert horiz ediag r).1 =
      cycleKeysF c vert horiz ediag r ++ (cycleKeysF c vert horiz ediag r).reverse := by
  unfold cycleBody cycleKeysF
  simp only [dispatchSeq_append, dispatchSeq_idleStep, dispatchSeq_dispatchPass]
  simp [dispatchSeq]

theorem reportsOf_cycleBody (c : Cfg) (vert horiz : List ℕ) (ediag : Bool) (r : Rng) :
    reportsOf (cycleBody c vert horiz ediag r).1 = [] := by
  unfold cycleBody
  simp only [reportsOf_append, reportsOf_idleStep, reportsOf_dispatchPass]
  simp [reportsOf]

theorem no_teardown_cycleBody (c : Cfg) (vert horiz : List ℕ) (ediag : Bool) (r : Rng) :
    Ev.teardown ∉ (cycleBody c vert horiz ediag r).1 := by
  unfold cycleBody
  simp only [List.mem_append, not_or]
  refine ⟨⟨⟨fun hm => no_teardown_idleStep c r hm, fun hm => no_teardown_dispatchPass c _ _ hm⟩,
    fun hm => no_teardown_dispatchPass c _ _ hm⟩, by simp⟩

theorem cycleKeysF_length (c : Cfg) (vert horiz : List ℕ) (ediag : Bool) (r : Rng) :
    (cycleKeysF c vert horiz ediag r).length = 2 := by
  unfold cycleKeysF
  by_cases h : rhead (planMove ediag vert horiz (idleStep c r).2).2 % 2 = 0 <;>
    simp [h, planMove_keys_length]
theorem loopGo_nil (c : Cfg) (vert horiz : List ℕ) (ediag : Bool)
    (ph : Phase) (r : Rng) (pr : Bool) :
    loopGo c vert horiz ediag [] ph r pr = ([], false) := by
  simp [loopGo]

theorem loopGo_outer_stop (c : Cfg) (vert horiz : List ℕ) (ediag : Bool)
    {ob : Bool × Bool} (rest : Sched) (r : Rng) (pr : Bool) (h : ob.2 = true) :
    loopGo c vert horiz ediag (ob :: rest) Phase.outer r pr = ([], true) := by
  simp [loopGo, h]

theorem loopGo_outer_go (c : Cfg) (vert horiz : List ℕ) (ediag : Bool)
    {ob : Bool × Bool} (rest : Sched) (r : Rng) (pr : Bool) (h : ob.2 = false) :
    loopGo c vert horiz ediag (ob :: rest) Phase.outer r pr =
      loopGo c vert horiz ediag rest Phase.inner r pr := by
  simp [loopGo, h]

theorem loopGo_inner_pause_first (c : Cfg) (vert horiz : List ℕ) (ediag : Bool)
    {ob : Bool × Bool} (rest : Sched) (r : Rng)
    (h : (ob.1 && !ob.2) = true) :
    loopGo c vert horiz ediag (ob :: rest) Phase.inner r false =
      (Ev.report "Paused" :: Ev.sleepFixed (3/20) ::
         (loopGo c vert horiz ediag rest Phase.inner r true).1,
       (loopGo c vert horiz ediag rest Phase.inner r true).2) := by
  simp [loopGo, h]

theorem loopGo_inner_pause_again (c : Cfg) (vert horiz : List ℕ) (ediag : Bool)
    {ob : Bool × Bool} (rest : Sched) (r : Rng)
    (h : (ob.1 && !ob.2) = true) :
    loopGo c vert horiz ediag (ob :: rest) Phase.inner r true =
      (Ev.sleepFixed (3/20) ::
         (loopGo c vert horiz ediag rest Phase.inner r true).1,
       (loopGo c vert horiz ediag rest Phase.inner r true).2) := by
  simp [loopGo, h]

theorem loopGo_inner_done (c : Cfg) (vert horiz : List ℕ) (ediag : Bool)
    {ob : Bool × Bool} (rest : Sched) (r : Rng) (pr : Bool)
    (h : (ob.1 && !ob.2) = false) :
    loopGo c vert horiz ediag (ob :: rest) Phase.inner r pr =
      loopGo c vert horiz ediag rest Phase.postInner r pr := by
  simp [loopGo, h]

theorem loopGo_post_stop (c : Cfg) (vert horiz : List ℕ) (ediag : Bool)
    {ob : Bool × Bool} (rest : Sched) (r : Rng) (pr : Bool) (h : ob.2 = true) :
    loopGo c vert horiz ediag (ob :: rest) Phase.postInner r pr = ([], true) := by
  simp [loopGo, h]

theorem loopGo_post_cycle (c : Cfg) (vert horiz : List ℕ) (ediag : Bool)
    {ob : Bool × Bool} (rest : Sched) (r : Rng) (pr : Bool) (h : ob.2 = false) :
    loopGo c vert horiz ediag (ob :: rest) Phase.postInner r pr =
      (Ev.report "Running" :: (cycleBody c vert horiz ediag r).1 ++
         (loopGo c vert horiz ediag rest Phase.outer
            (cycleBody c vert horiz ediag r).2 false).1,
       (loopGo c vert horiz ediag rest Phase.outer
          (cycleBody c vert horiz ediag r).2 false).2) := by
  simp [loopGo, h]

theorem no_teardown_loopGo (c : Cfg) (vert horiz : List ℕ) (ediag : Bool) :
    ∀ (sched : Sched) (ph : Phase) (r : Rng) (pr : Bool),
    Ev.teardown ∉ (loopGo c vert horiz ediag sched ph r pr).1 := by
  intro sched
  induction sched with
  | nil => intro ph r pr; simp [loopGo_nil]
  | cons ob rest ih =>
    intro ph r pr
    cases ph with
    | outer =>
      rcases Bool.eq_false_or_eq_true ob.2 with h | h
      · rw [loopGo_outer_stop c vert horiz ediag rest r pr h]
        simp
      · rw [loopGo_outer_go c vert horiz ediag rest r pr h]
        exact ih Phase.inner r pr
    | inner =>
      rcases Bool.eq_false_or_eq_true (ob.1 && !ob.2) with h | h
      · rcases Bool.eq_false_or_eq_true pr with hpr | hpr
        · subst hpr
          rw [loopGo_inner_pause_again c vert horiz ediag rest r h]
          intro hm
          rcases List.mem_cons.mp hm with h1 | h2
          · cases h1
          · exact ih Phase.inner r true h2
        · subst hpr
          rw [loopGo_inner_pause_first c vert horiz ediag rest r h]
          intro hm
          rcases List.mem_cons.mp hm with h1 | h2
          · cases h1
          · rcases List.mem_cons.mp h2 with h3 | h4
            · cases h3
            · exact ih Phase.inner r true h4
      · rw [loopGo_inner_done c vert horiz ediag rest r pr h]
        exact ih Phase.postInner r pr
    | postInner =>
      rcases Bool.eq_false_or_eq_true ob.2 with h | h
      · rw [loopGo_post_stop c vert horiz ediag rest r pr h]
        simp
      · rw [loopGo_post_cycle c vert horiz ediag rest r pr h]
        intro hm
        rcases List.mem_cons.mp hm with h1 | h2
        · cases h1
        · rcases List.mem_append.mp h2 with h3 | h4
          · exact no_teardown_cycleBody c vert horiz ediag r h3
          · exact ih Phase.outer _ false h4
/-- Inside the loop: only `"Paused"`/`"Running"` are reported, `"Paused"` is
never reported twice in a row (the `paused_reported` latch), and when the
latch is already set the next report cannot be `"Paused"`. -/
theorem loopGo_reports (c : Cfg) (vert horiz : List ℕ) (ediag : Bool) :
    ∀ (sched : Sched) (ph : Phase) (r : Rng) (pr : Bool),
    (∀ x ∈ reportsOf (loopGo c vert horiz ediag sched ph r pr).1,
        x = "Paused" ∨ x = "Running")
    ∧ List.Chain' (fun a b => ¬(a = "Paused" ∧ b = "Paused"))
        (reportsOf (loopGo c vert horiz ediag sched ph r pr).1)
    ∧ (pr = true →
        ∀ x ∈ (reportsOf (loopGo c vert horiz ediag sched ph r pr).1).head?,
          x ≠ "Paused") := by
  intro sched
  induction sched with
  | nil =>
    intro ph r pr
    simp [loopGo_nil, reportsOf]
  | cons ob rest ih =>
    intro ph r pr
    cases ph with
    | outer =>
      rcases Bool.eq_false_or_eq_true ob.2 with h | h
      · rw [loopGo_outer_stop c vert horiz ediag rest r pr h]
        simp [reportsOf]
      · rw [loopGo_outer_go c vert horiz ediag rest r pr h]
        exact ih Phase.inner r pr
    | inner =>
      rcases Bool.eq_false_or_eq_true (ob.1 && !ob.2) with h | h
      · rcases Bool.eq_false_or_eq_true pr with hpr | hpr
        · subst hpr
          rw [loopGo_inner_pause_again c vert horiz ediag rest r h]
          have hfix : reportsOf (Ev.sleepFixed (3/20) ::
              (loopGo c vert horiz ediag rest Phase.inner r true).1) =
              reportsOf (loopGo c vert horiz ediag rest Phase.inner r true).1 := by
            simp [reportsOf]
          rw [hfix]
          have := ih Phase.inner r true
          exact ⟨this.1, this.2.1, fun _ => this.2.2 rfl⟩
        · subst hpr
          rw [loopGo_inner_pause_first c vert horiz ediag rest r h]
          have hfix : reportsOf (Ev.report "Paused" :: Ev.sleepFixed (3/20) ::
              (loopGo c vert horiz ediag rest Phase.inner r true).1) =
              "Paused" :: reportsOf (loopGo c vert horiz ediag rest Phase.inner r true).1 := by
            simp [reportsOf]
          rw [hfix]
          have := ih Phase.inner r true
          refine ⟨?_, ?_, ?_⟩
          · intro x hx
            rcases List.mem_cons.mp hx with h1 | h2
            · exact Or.inl h1
            · exact this.1 x h2
          · rw [List.chain'_cons']
            exact ⟨fun b hb hcon => this.2.2 rfl b hb hcon.2, this.2.1⟩
          · intro hcon
            cases hcon
      · rw [loopGo_inner_done c vert horiz ediag rest r pr h]
        exact ih Phase.postInner r pr
    | postInner =>
      rcases Bool.eq_false_or_eq_true ob.2 with h | h
      · rw [loopGo_post_stop c vert horiz ediag rest r pr h]
        simp [reportsOf]
      · rw [loopGo_post_cycle c vert horiz ediag rest r pr h]
        have hrw : reportsOf (Ev.report "Running" ::
            (cycleBody c vert horiz ediag r).1 ++
            (loopGo c vert horiz ediag rest Phase.outer
              (cycleBody c vert horiz ediag r).2 false).1) =
            "Running" :: reportsOf (loopGo c vert horiz ediag rest Phase.outer
              (cycleBody c vert horiz ediag r).2 false).1 := by
          have hsplit : Ev.report "Running" :: (cycleBody c vert horiz ediag r).1 ++
              (loopGo c vert horiz ediag rest Phase.outer
                (cycleBody c vert horiz ediag r).2 false).1 =
              [Ev.report "Running"] ++ ((cycleBody c vert horiz ediag r).1 ++
              (loopGo c vert horiz ediag rest Phase.outer
                (cycleBody c vert horiz ediag r).2 false).1) := by simp
          rw [hsplit, reportsOf_append, reportsOf_append, reportsOf_cycleBody]
          simp [reportsOf]
        rw [hrw]
        have := ih Phase.outer (cycleBody c vert horiz ediag r).2 false
        refine ⟨?_, ?_, ?_⟩
        · intro x hx
          rcases List.mem_cons.mp hx with h1 | h2
          · exact Or.inr h1
          · exact this.1 x h2
        · rw [List.chain'_cons']
          exact ⟨fun b hb hcon => by simp at hcon, this.2.1⟩
        · intro _ x hx
          simp only [List.head?_cons, Option.mem_def, Option.some.injEq] at hx
          rw [← hx]
          simp
/-- Every cycle contributes exactly one `"Running"` report and exactly four
`maybe_double` dispatches: `"Running"` is re-reported per cycle. -/
theorem loopGo_dispatch_count (c : Cfg) (vert horiz : List ℕ) (ediag : Bool) :
    ∀ (sched : Sched) (ph : Phase) (r : Rng) (pr : Bool),
    (dispatchSeq (loopGo c vert horiz ediag sched ph r pr).1).length =
      4 * (reportsOf (loopGo c vert horiz ediag sched ph r pr).1).count "Running" := by
  intro sched
  induction sched with
  | nil =>
    intro ph r pr
    simp [loopGo_nil, reportsOf, dispatchSeq]
  | cons ob rest ih =>
    intro ph r pr
    cases ph with
    | outer =>
      rcases Bool.eq_false_or_eq_true ob.2 with h | h
      · rw [loopGo_outer_stop c vert horiz ediag rest r pr h]
        simp [reportsOf, dispatchSeq]
      · rw [loopGo_outer_go c vert horiz ediag rest r pr h]
        exact ih Phase.inner r pr
    | inner =>
      rcases Bool.eq_false_or_eq_true (ob.1 && !ob.2) with h | h
      · rcases Bool.eq_false_or_eq_true pr with hpr | hpr
        · subst hpr
          rw [loopGo_inner_pause_again c vert horiz ediag rest r h]
          have h1 : dispatchSeq (Ev.sleepFixed (3/20) ::
              (loopGo c vert horiz ediag rest Phase.inner r true).1) =
              dispatchSeq (loopGo c vert horiz ediag rest Phase.inner r true).1 := by
            simp [dispatchSeq]
          have h2 : reportsOf (Ev.sleepFixed (3/20) ::
              (loopGo c vert horiz ediag rest Phase.inner r true).1) =
              reportsOf (loopGo c vert horiz ediag rest Phase.inner r true).1 := by
            simp [reportsOf]
          rw [h1, h2]
          exact ih Phase.inner r true
        · subst hpr
          rw [loopGo_inner_pause_first c vert horiz ediag rest r h]
          have h1 : dispatchSeq (Ev.report "Paused" :: Ev.sleepFixed (3/20) ::
              (loopGo c vert horiz ediag rest Phase.inner r true).1) =
              dispatchSeq (loopGo c vert horiz ediag rest Phase.inner r true).1 := by
            simp [dispatchSeq]
          have h2 : reportsOf (Ev.report "Paused" :: Ev.sleepFixed (3/20) ::
              (loopGo c vert horiz ediag rest Phase.inner r true).1) =
              "Paused" :: reportsOf (loopGo c vert horiz ediag rest Phase.inner r true).1 := by
            simp [reportsOf]
          rw [h1, h2]
          have hcnt : ("Paused" :: reportsOf (loopGo c vert horiz ediag rest
              Phase.inner r true).1).count "Running" =
              (reportsOf (loopGo c vert horiz ediag rest Phase.inner r true).1).count
                "Running" := by
            simp [List.count_cons]
          rw [hcnt]
          exact ih Phase.inner r true
      · rw [loopGo_inner_done c vert horiz ediag rest r pr h]
        exact ih Phase.postInner r pr
    | postInner =>
      rcases Bool.eq_false_or_eq_true ob.2 with h | h
      · rw [loopGo_post_stop c vert horiz ediag rest r pr h]
        simp [reportsOf, dispatchSeq]
      · rw [loopGo_post_cycle c vert horiz ediag rest r pr h]
        have hsplit : Ev.report "Running" :: (cycleBody c vert horiz ediag r).1 ++
            (loopGo c vert horiz ediag rest Phase.outer
              (cycleBody c vert horiz ediag r).2 false).1 =
            [Ev.report "Running"] ++ ((cycleBody c vert horiz ediag r).1 ++
            (loopGo c vert horiz ediag rest Phase.outer
              (cycleBody c vert horiz ediag r).2 false).1) := by simp
        rw [hsplit]
        rw [dispatchSeq_append, dispatchSeq_append, reportsOf_append, reportsOf_append]
        rw [dispatchSeq_cycleBody, reportsOf_cycleBody]
        have hds : dispatchSeq [Ev.report "Running"] = [] := by simp [dispatchSeq]
        have hrs : reportsOf [Ev.report "Running"] = ["Running"] := by simp [reportsOf]
        rw [hds, hrs]
        simp only [List.nil_append, List.length_append, List.length_reverse,
          List.cons_append, List.count_cons]
        rw [cycleKeysF_length, ih Phase.outer (cycleBody c vert horiz ediag r).2 false]
        simp [Nat.mul_add, Nat.add_comm]
/-! ## Supporting lemmas for the claim theorems, and concrete fixtures -/

theorem isEmpty_false_of_ne_nil {α : Type} {l : List α} (h : l ≠ []) :
    l.isEmpty = false := by
  cases l with
  | nil => exact absurd rfl h
  | cons a t => rfl

theorem choiceNat_mem {l : List ℕ} (h : l ≠ []) (r : Rng) : choiceNat l r ∈ l := by
  unfold choiceNat
  have hlen : 0 < l.length := List.length_pos.mpr h
  have hidx : rhead r % l.length < l.length := Nat.mod_lt _ hlen
  rw [List.getD_eq_getElem l 0 hidx]
  exact List.getElem_mem hidx

/-- `(axisMove ...).1.isDiag` is always `false`. -/
theorem axisMove_isDiag (vert horiz : List ℕ) (r : Rng) :
    (axisMove vert horiz r).1.isDiag = false := rfl

/-- The engine configuration corresponding to `DEFAULT_CONFIG`. -/
def cfgAll : Cfg :=
  ⟨⟨17, true⟩, ⟨30, true⟩, ⟨31, true⟩, ⟨32, true⟩, true,
   1/4, 9/10, 3/50, 1/5, true, 10, 1, 7/2, true, 8⟩

/-- A configuration with only the `W` key enabled. -/
def cfgOnlyW : Cfg :=
  ⟨⟨17, true⟩, ⟨30, false⟩, ⟨31, false⟩, ⟨32, false⟩, false,
   1/4, 9/10, 3/50, 1/5, false, 10, 1, 7/2, false, 8⟩

/-- `cfgAll` with double taps disabled. -/
def cfgNoDT : Cfg :=
  ⟨⟨17, true⟩, ⟨30, true⟩, ⟨31, true⟩, ⟨32, true⟩, true,
   1/4, 9/10, 3/50, 1/5, true, 10, 1, 7/2, false, 8⟩

/-- A benign environment: runtime dir present, `ydotoold` launches fine, no
pre-existing daemon. -/
def envStd : Env := ⟨some "/run/user/1000", "/home/user", 4242, 1000, 1000, true, false⟩

/-- `envStd`, but a compatible injection daemon is already running for this
user. -/
def envDaemonUp : Env := ⟨some "/run/user/1000", "/home/user", 4242, 1000, 1000, true, true⟩

/-- An all-zero randomness oracle. -/
def rngZeros : Rng := [0, 0, 0, 0, 0, 0, 0, 0, 0, 0, 0, 0, 0, 0, 0, 0, 0, 0, 0, 0]

/-- A schedule producing two full cycles and then a stop: each cycle
consumes three flag observations (outer, inner, post-inner). -/
def schedTwoCycles : Sched :=
  [(false, false), (false, false), (false, false),
   (false, false), (false, false), (false, false), (false, true)]

/-- An engine thread whose run thread is alive. -/
def csRunning : CState := ⟨true, false, true, dInit⟩

theorem teardownCount_append (t u : Trace) :
    teardownCount (t ++ u) = teardownCount t + teardownCount u := by
  simp [teardownCount]

theorem teardownCount_stop_ydotoold (s : DState) :
    teardownCount (stop_ydotoold s).2 = 1 := by
  rcases s with ⟨p, sp, st⟩
  by_cases hp : p = some true <;> rcases sp with _ | sock <;> cases st <;>
    simp [stop_ydotoold, teardownCount, hp, List.count_cons, List.count_append]

/-- `_stop_ydotoold` is idempotent: a second invocation finds no process
handle and no ownership flag, so beyond the invocation itself it performs no
daemon action and leaves the state unchanged. -/
theorem stop_ydotoold_idem (s : DState) :
    stop_ydotoold (stop_ydotoold s).1 = ((stop_ydotoold s).1, [Ev.teardown]) := by
  rcases s with ⟨p, sp, st⟩
  simp [stop_ydotoold]

theorem teardownCount_loopGo (c : Cfg) (vert horiz : List ℕ) (ediag : Bool)
    (sched : Sched) (ph : Phase) (r : Rng) (pr : Bool) :
    teardownCount (loopGo c vert horiz ediag sched ph r pr).1 = 0 := by
  exact List.count_eq_zero.mpr (no_teardown_loopGo c vert horiz ediag sched ph r pr)
/-- The supervisor state right after a successful `_ensure_ydotoold`. -/
def dLive (env : Env) : DState := ⟨some true, some (socketPathOf env), true⟩

theorem ensure_ydotoold_ok {env : Env} (hok : env.ydotooldLaunchOk = true) (s : DState) :
    ensure_ydotoold env s =
      (true, { s with ydotoold_proc := some true,
                      socket_path := some (socketPathOf env),
                      started_ydotoold := true },
       [Ev.rmSocket (socketPathOf env), Ev.launch (socketPathOf env) env.uid env.gid,
        Ev.sleepFixed (1/4)]) := by
  simp [ensure_ydotoold, hok]

theorem ensure_ydotoold_fail {env : Env} (hok : env.ydotooldLaunchOk = false) (s : DState) :
    ensure_ydotoold env s =
      (false, { s with socket_path := some (socketPathOf env) },
       [Ev.rmSocket (socketPathOf env)]) := by
  simp [ensure_ydotoold, hok]

theorem runThread_insufficient {c : Cfg} (env : Env) (sched : Sched) (r : Rng)
    (h : enabledCount c < 2) :
    runThread c env sched r =
      ([Ev.report "Stopped: enable at least 2 keys"], dInit, true) := by
  simp [runThread, h]

theorem runThread_noDaemon {c : Cfg} {env : Env} (sched : Sched) (r : Rng)
    (h : ¬ enabledCount c < 2) (hok : env.ydotooldLaunchOk = false) :
    runThread c env sched r =
      (Ev.ensure :: Ev.rmSocket (socketPathOf env) ::
         [Ev.report "Stopped: ydotoold missing or failed"],
       ⟨none, some (socketPathOf env), false⟩, true) := by
  simp only [runThread, h, if_false]
  rw [ensure_ydotoold_fail hok dInit]
  simp [dInit]

theorem runThread_exited {c : Cfg} {env : Env} {sched : Sched} {r : Rng}
    (h : ¬ enabledCount c < 2) (hok : env.ydotooldLaunchOk = true)
    (hex : (loopGo c (vertCodes c) (horizCodes c) (enableDiag c)
              sched Phase.outer r false).2 = true) :
    runThread c env sched r =
      (Ev.ensure :: Ev.rmSocket (socketPathOf env) ::
         Ev.launch (socketPathOf env) env.uid env.gid :: Ev.sleepFixed (1/4) ::
         Ev.report "Running" ::
         (loopGo c (vertCodes c) (horizCodes c) (enableDiag c)
            sched Phase.outer r false).1 ++
         Ev.report "Stopped" :: (stop_ydotoold (dLive env)).2,
       (stop_ydotoold (dLive env)).1, true) := by
  simp only [runThread, h, if_false]
  rw [ensure_ydotoold_ok hok dInit]
  simp [hex, dInit, dLive]

theorem runThread_truncated {c : Cfg} {env : Env} {sched : Sched} {r : Rng}
    (h : ¬ enabledCount c < 2) (hok : env.ydotooldLaunchOk = true)
    (hex : (loopGo c (vertCodes c) (horizCodes c) (enableDiag c)
              sched Phase.outer r false).2 = false) :
    runThread c env sched r =
      (Ev.ensure :: Ev.rmSocket (socketPathOf env) ::
         Ev.launch (socketPathOf env) env.uid env.gid :: Ev.sleepFixed (1/4) ::
         Ev.report "Running" ::
         (loopGo c (vertCodes c) (horizCodes c) (enableDiag c)
            sched Phase.outer r false).1,
       dLive env, false) := by
  simp only [runThread, h, if_false]
  rw [ensure_ydotoold_ok hok dInit]
  simp [hex, dInit, dLive]
/-! ## Claim theorems: C1, C9 -/

/-- C1: for every configuration with fewer than 2 enabled keys, a started
run reports the terminal `"Stopped: enable at least 2 keys"` status and
returns immediately: the whole thread trace is that single report, so
`_ensure_ydotoold` is never invoked and no key event is dispatched. -/
theorem c1_insufficient_keys_stops_before_supervisor
    (c : Cfg) (env : Env) (sched : Sched) (r : Rng) (h : enabledCount c < 2) :
    runThread c env sched r =
      ([Ev.report "Stopped: enable at least 2 keys"], dInit, true)
    ∧ Ev.ensure ∉ (runThread c env sched r).1
    ∧ dispatchSeq (runThread c env sched r).1 = []
    ∧ (∀ code, Ev.keyDown code ∉ (runThread c env sched r).1) := by
  have h1 := runThread_insufficient env sched r h
  refine ⟨h1, ?_, ?_, ?_⟩ <;> rw [h1] <;> simp [dispatchSeq]

/-- Witness for C1 at the one-key configuration `cfgOnlyW`. -/
theorem c1_witness :
    enabledCount cfgOnlyW < 2 ∧
    runThread cfgOnlyW envStd [] [] =
      ([Ev.report "Stopped: enable at least 2 keys"], dInit, true) :=
  ⟨by decide,
   (c1_insufficient_keys_stops_before_supervisor cfgOnlyW envStd [] [] (by decide)).1⟩

/-- C9: calling `start` while the run thread is alive is a no-op: the
engine state (flags, supervisor state) is unchanged and nothing is spawned
or acquired (the emitted trace is empty). -/
theorem c9_start_noop_when_running (s : CState) (h : s.threadAlive = true) :
    startFn s = (s, []) := by
  simp [startFn, h]

/-- Witness for C9 at a running engine state. -/
theorem c9_witness :
    csRunning.threadAlive = true ∧ startFn csRunning = (csRunning, []) :=
  ⟨rfl, c9_start_noop_when_running csRunning rfl⟩

/-! ## Claim theorems: C5 -/

/-- C5: a diagonal move is planned only when `enable_diagonals` is set and
both the vertical and the horizontal enabled-code sets are non-empty
(equivalently: in every other situation an axis move is forced, since
`move_type` is binary). -/
theorem c5_diag_only_when_eligible (c : Cfg) (r : Rng)
    (h : (planMove (enableDiag c) (vertCodes c) (horizCodes c) r).1.isDiag = true) :
    c.enable_diagonals = true ∧ vertCodes c ≠ [] ∧ horizCodes c ≠ [] := by
  have hd : enableDiag c = true := by
    rcases Bool.eq_false_or_eq_true (enableDiag c) with ht | hf
    · exact ht
    · rw [hf] at h
      unfold planMove at h
      simp only [Bool.false_eq_true, if_false] at h
      rw [axisMove_isDiag] at h
      cases h
  unfold enableDiag at hd
  simp only [Bool.and_eq_true, Bool.not_eq_true'] at hd
  refine ⟨hd.1, ?_, ?_⟩
  · intro hnil
    rw [hnil] at hd
    simp at hd
  · intro hnil
    rw [hnil] at hd
    simp at hd

/-- Witness for C5: with everything enabled and an oracle whose first draw
selects `"diag"`, a diagonal move is planned and eligibility holds. -/
theorem c5_witness :
    (planMove (enableDiag cfgAll) (vertCodes cfgAll) (horizCodes cfgAll)
       [1, 0, 0]).1.isDiag = true ∧
    cfgAll.enable_diagonals = true ∧ vertCodes cfgAll ≠ [] ∧ horizCodes cfgAll ≠ [] :=
  ⟨by decide,
   c5_diag_only_when_eligible cfgAll [1, 0, 0] (by decide)⟩
/-! ## Claim theorems: C7 -/

/-- C7: every cycle dispatches the planned pair (reversed when the coin of
line 395 fires) as a forward pass immediately followed by a reverse pass:
the `maybe_double` call sequence is exactly `keysF ++ keysF.reverse` for
`keysF` equal to the planned sequence or its reversal, giving exactly 4
press operations per cycle, with the passes never interleaved or
reordered. -/
theorem c7_cycle_dispatch_shape (c : Cfg) (vert horiz : List ℕ) (ediag : Bool) (r : Rng) :
    dispatchSeq (cycleBody c vert horiz ediag r).1 =
      cycleKeysF c vert horiz ediag r ++ (cycleKeysF c vert horiz ediag r).reverse
    ∧ (cycleKeysF c vert horiz ediag r =
         (planMove ediag vert horiz (idleStep c r).2).1.keys ∨
       cycleKeysF c vert horiz ediag r =
         (planMove ediag vert horiz (idleStep c r).2).1.keys.reverse)
    ∧ (dispatchSeq (cycleBody c vert horiz ediag r).1).length = 4 := by
  refine ⟨dispatchSeq_cycleBody c vert horiz ediag r, ?_, ?_⟩
  · unfold cycleKeysF
    by_cases hcoin : rhead (planMove ediag vert horiz (idleStep c r).2).2 % 2 = 0
    · simp [hcoin]
    · simp [hcoin]
  · rw [dispatchSeq_cycleBody c vert horiz ediag r]
    simp [cycleKeysF_length]

/-! ## Claim theorems: C8 (corrected) -/

/-- C8 counterexample: with `double_tap_enabled = false` (configuration
`cfgNoDT`) the oracle value at the draw position would map to 1, yet no
second press happens — the code never draws at all (short-circuit of line
350), contradicting the claim that every `maybe_double` call draws and
doubles iff the draw is 1. -/
theorem c8_counterexample :
    randint1 (max 2 cfgNoDT.double_tap_chance).toNat
        (press_key cfgNoDT 17 rngZeros).2 = 1
    ∧ ¬ ((maybe_double cfgNoDT 17 rngZeros).1.count (Ev.keyDown 17) =
          if randint1 (max 2 cfgNoDT.double_tap_chance).toNat
              (press_key cfgNoDT 17 rngZeros).2 = 1 then 2 else 1) := by
  constructor
  · decide
  · intro hcon
    have h1 : (maybe_double cfgNoDT 17 rngZeros).1 =
        [Ev.keyDown 17, Ev.sleepU cfgNoDT.press_min cfgNoDT.press_max, Ev.keyUp 17] := by
      simp [maybe_double, press_key, cfgNoDT]
    rw [h1] at hcon
    have h2 : randint1 (max 2 cfgNoDT.double_tap_chance).toNat
        (press_key cfgNoDT 17 rngZeros).2 = 1 := by decide
    rw [if_pos h2] at hcon
    simp [List.count_cons] at hcon

/-- C8 as amended: when double taps are enabled, `maybe_double(code)` draws
one integer from `[1, max(2, doubleTapChance)]` after the normal press; iff
it equals 1, a uniform 30-120 ms pause elapses and `code` is pressed again;
and the double-tap chance parameter influences the behaviour only through
the bound `max 2 chance` of this draw. -/
theorem c8_double_tap_draw (c : Cfg) (code : ℕ) (r : Rng)
    (h : c.double_tap_enabled = true) :
    (1 ≤ randint1 (max 2 c.double_tap_chance).toNat (press_key c code r).2
     ∧ (randint1 (max 2 c.double_tap_chance).toNat (press_key c code r).2 : ℤ)
         ≤ max 2 c.double_tap_chance)
    ∧ (randint1 (max 2 c.double_tap_chance).toNat (press_key c code r).2 = 1 →
        (maybe_double c code r).1 =
          (press_key c code r).1 ++ [Ev.sleepU (3/100) (3/25)] ++
          (press_key c code (rtail (rtail (press_key c code r).2))).1)
    ∧ (randint1 (max 2 c.double_tap_chance).toNat (press_key c code r).2 ≠ 1 →
        (maybe_double c code r).1 = (press_key c code r).1)
    ∧ (∀ n : ℤ, max 2 n = max 2 c.double_tap_chance →
        maybe_double ⟨c.keyW, c.keyA, c.keyS, c.keyD, c.enable_diagonals,
          c.min_delay, c.max_delay, c.press_min, c.press_max, c.idle_enabled,
          c.idle_chance, c.idle_min, c.idle_max, c.double_tap_enabled, n⟩
          code r = maybe_double c code r) := by
  refine ⟨⟨?_, ?_⟩, ?_, ?_, ?_⟩
  · unfold randint1
    omega
  · have hm : (0 : ℤ) ≤ max 2 c.double_tap_chance := by
      have : (2 : ℤ) ≤ max 2 c.double_tap_chance := le_max_left 2 _
      omega
    have hpos : 0 < (max 2 c.double_tap_chance).toNat := by
      omega
    have hlt : rhead (press_key c code r).2 % (max 2 c.double_tap_chance).toNat <
        (max 2 c.double_tap_chance).toNat := Nat.mod_lt _ hpos
    unfold randint1
    omega
  · intro hd
    simp [maybe_double, h, hd]
  · intro hd
    simp [maybe_double, h, hd]
  · intro n hn
    simp [maybe_double, press_key, hn]

/-- Witness for C8 at `cfgAll` with the zero oracle (the draw equals 1, so
the double tap happens after the fixed-range pause). -/
theorem c8_witness :
    cfgAll.double_tap_enabled = true ∧
    (maybe_double cfgAll 17 rngZeros).1 =
      (press_key cfgAll 17 rngZeros).1 ++ [Ev.sleepU (3/100) (3/25)] ++
      (press_key cfgAll 17 (rtail (rtail (press_key cfgAll 17 rngZeros).2))).1 :=
  ⟨rfl, (c8_double_tap_draw cfgAll 17 rngZeros rfl).2.1 (by decide)⟩
/-! ## Claim theorems: C3 (corrected) -/

/-- C3 counterexample: in an environment where a compatible daemon is
already running (`envDaemonUp`), `_ensure_ydotoold` nevertheless launches a
second `ydotoold` instance and marks the handle as owned by this run
(`started_ydotoold = true`) — there is no liveness probe, no reuse and no
"not owned by us" marking anywhere in the code. -/
theorem c3_counterexample :
    envDaemonUp.compatibleDaemonRunning = true
    ∧ (ensure_ydotoold envDaemonUp dInit).2.1.started_ydotoold = true
    ∧ Ev.launch (socketPathOf envDaemonUp) envDaemonUp.uid envDaemonUp.gid
        ∈ (ensure_ydotoold envDaemonUp dInit).2.2 := by
  refine ⟨rfl, ?_, ?_⟩
  · simp [ensure_ydotoold, envDaemonUp, dInit]
  · simp [ensure_ydotoold, envDaemonUp, dInit]

/-- C3 as amended: `_ensure_ydotoold` performs no liveness probe — its
result is independent of whether a compatible daemon is already running;
whenever the launch can succeed it starts its own instance on the pid-unique
socket path and marks it owned (`started_ydotoold = true`); and teardown
only ever terminates the process handle this run stored, so a pre-existing
daemon (with its own socket) is never touched. -/
theorem c3_always_launches_own_daemon (env : Env) (s : DState) :
    (∀ b : Bool,
      ensure_ydotoold ⟨env.xdgRuntimeDir, env.home, env.pid, env.uid, env.gid,
        env.ydotooldLaunchOk, b⟩ s = ensure_ydotoold env s)
    ∧ (env.ydotooldLaunchOk = true →
        (ensure_ydotoold env s).2.1.started_ydotoold = true
        ∧ Ev.launch (socketPathOf env) env.uid env.gid ∈ (ensure_ydotoold env s).2.2)
    ∧ (∀ s2 : DState, s2.ydotoold_proc = none → Ev.terminate ∉ (stop_ydotoold s2).2) := by
  refine ⟨?_, ?_, ?_⟩
  · intro b
    simp [ensure_ydotoold, socketPathOf]
  · intro hok
    rw [ensure_ydotoold_ok hok s]
    exact ⟨rfl, by simp⟩
  · intro s2 hp
    simp [stop_ydotoold, hp]
    rcases s2.socket_path with _ | sock <;> by_cases hs : s2.started_ydotoold <;> simp [hs]

/-- Witness for C3 (amended) at `envDaemonUp`. -/
theorem c3_witness :
    ensure_ydotoold envDaemonUp dInit = ensure_ydotoold envStd dInit
    ∧ (ensure_ydotoold envStd dInit).2.1.started_ydotoold = true
    ∧ Ev.terminate ∉ (stop_ydotoold dInit).2 :=
  ⟨(c3_always_launches_own_daemon envStd dInit).1 true,
   ((c3_always_launches_own_daemon envStd dInit).2.1 rfl).1,
   (c3_always_launches_own_daemon envStd dInit).2.2 dInit rfl⟩
/-! ## Claim theorems: C6 -/

theorem axisMove_spec (vert horiz : List ℕ) (r : Rng) :
    (vert = [] → (axisMove vert horiz r).1.axisVert = false)
    ∧ (horiz = [] → vert ≠ [] → (axisMove vert horiz r).1.axisVert = true)
    ∧ (∃ first,
        (axisMove vert horiz r).1.keys =
          [first,
           (((if (axisMove vert horiz r).1.axisVert then vert else horiz).filter
              (fun x => x ≠ first)).headD first)]
        ∧ ((if (axisMove vert horiz r).1.axisVert then vert else horiz) ≠ [] →
            first ∈ (if (axisMove vert horiz r).1.axisVert then vert else horiz))) := by
  by_cases hv : vert = []
  · refine ⟨fun _ => ?_, fun _ hvn => absurd hv hvn, ?_⟩
    · simp [axisMove, hv]
    · refine ⟨choiceNat (if (axisMove vert horiz r).1.axisVert then vert else horiz)
        (if !vert.isEmpty && !horiz.isEmpty then rtail r else r), ?_, ?_⟩
      · simp [axisMove, hv]
      · intro hne
        exact choiceNat_mem hne _
  · by_cases hh : horiz = []
    · have hav : (axisMove vert horiz r).1.axisVert = true := by
        simp [axisMove, isEmpty_false_of_ne_nil hv, hh]
      refine ⟨fun hcon => absurd hcon hv, fun _ _ => hav, ?_⟩
      refine ⟨choiceNat vert r, ?_, ?_⟩
      · rw [hav]
        simp [axisMove, isEmpty_false_of_ne_nil hv, hh]
      · rw [hav]
        intro _
        simp only [if_true]
        exact choiceNat_mem hv r
    · have hv2 := isEmpty_false_of_ne_nil hv
      have hh2 := isEmpty_false_of_ne_nil hh
      refine ⟨fun hcon => absurd hcon hv, fun hcon => absurd hcon hh, ?_⟩
      by_cases hcoin : rhead r % 2 = 0
      · have hav : (axisMove vert horiz r).1.axisVert = true := by
          simp [axisMove, hv2, hh2, hcoin]
        refine ⟨choiceNat vert (rtail r), ?_, ?_⟩
        · rw [hav]
          simp [axisMove, hv2, hh2, hcoin]
        · rw [hav]
          intro _
          simp only [if_true]
          exact choiceNat_mem hv (rtail r)
      · have hav : (axisMove vert horiz r).1.axisVert = false := by
          simp [axisMove, hv2, hh2, hcoin]
        refine ⟨choiceNat horiz (rtail r), ?_, ?_⟩
        · rw [hav]
          simp [axisMove, hv2, hh2, hcoin]
        · rw [hav]
          intro _
          simp only [Bool.false_eq_true, if_false]
          exact choiceNat_mem hh (rtail r)
/-- A non-diagonal `planMove` result is an `axisMove` at the rng position
after the `move_type` draw (when one happened). -/
theorem planMove_axis_eq (ediag : Bool) (vert horiz : List ℕ) (r : Rng)
    (h : (planMove ediag vert horiz r).1.isDiag = false) :
    ∃ r1, planMove ediag vert horiz r = axisMove vert horiz r1 := by
  by_cases he : ediag
  · by_cases hcoin : rhead r % 2 = 1
    · exfalso
      have : (planMove ediag vert horiz r).1.isDiag = true := by
        simp [planMove, he, hcoin]
      rw [this] at h
      cases h
    · exact ⟨rtail r, by simp [planMove, he, hcoin]⟩
  · exact ⟨r, by simp [planMove, he]⟩

/-- Reachability of every axis and every first code: with both axes
non-empty, for each axis `b` and each position `i` of that axis there is an
oracle whose axis move selects that axis and that first code. -/
theorem planMove_axis_reach (ediag : Bool) (vert horiz : List ℕ)
    (hv : vert ≠ []) (hh : horiz ≠ []) (b : Bool) (i : ℕ)
    (hi : i < (if b then vert else horiz).length) :
    ∃ r2, (planMove ediag vert horiz r2).1.isDiag = false
      ∧ (planMove ediag vert horiz r2).1.axisVert = b
      ∧ (planMove ediag vert horiz r2).1.keys.headD 0 =
          (if b then vert else horiz).getD i 0 := by
  refine ⟨(if ediag then [0] else []) ++ [(if b then 0 else 1), i], ?_⟩
  have hv2 := isEmpty_false_of_ne_nil hv
  have hh2 := isEmpty_false_of_ne_nil hh
  cases b with
  | true =>
    simp only [if_true] at hi ⊢
    have hmod : i % vert.length = i := Nat.mod_eq_of_lt hi
    cases he : ediag <;>
      simp [planMove, axisMove, he, rhead, rtail, choiceNat, hv2, hh2, hmod]
  | false =>
    simp only [Bool.false_eq_true, if_false] at hi ⊢
    have hmod : i % horiz.length = i := Nat.mod_eq_of_lt hi
    cases he : ediag <;>
      simp [planMove, axisMove, he, rhead, rtail, choiceNat, hv2, hh2, hmod]

/-- C6: for every axis move the axis is the vertical set when the
horizontal one is empty and vice versa (and when both are available each
axis is reachable via the axis coin); the first code is an element of the
chosen axis set, with every position reachable; and the second code is the
first remaining code of the axis after filtering out the first
(`opp[0] if opp else first`), i.e. the other code on that axis if one
exists, else the first code repeated. -/
theorem c6_axis_move_selection (ediag : Bool) (vert horiz : List ℕ) (r : Rng)
    (h : (planMove ediag vert horiz r).1.isDiag = false) :
    (vert = [] → (planMove ediag vert horiz r).1.axisVert = false)
    ∧ (horiz = [] → vert ≠ [] → (planMove ediag vert horiz r).1.axisVert = true)
    ∧ (∃ first,
        (planMove ediag vert horiz r).1.keys =
          [first,
           (((if (planMove ediag vert horiz r).1.axisVert then vert else horiz).filter
              (fun x => x ≠ first)).headD first)]
        ∧ ((if (planMove ediag vert horiz r).1.axisVert then vert else horiz) ≠ [] →
            first ∈ (if (planMove ediag vert horiz r).1.axisVert then vert else horiz)))
    ∧ (vert ≠ [] → horiz ≠ [] → ∀ (b : Bool) (i : ℕ),
        i < (if b then vert else horiz).length →
        ∃ r2, (planMove ediag vert horiz r2).1.isDiag = false
          ∧ (planMove ediag vert horiz r2).1.axisVert = b
          ∧ (planMove ediag vert horiz r2).1.keys.headD 0 =
              (if b then vert else horiz).getD i 0) := by
  obtain ⟨r1, heq⟩ := planMove_axis_eq ediag vert horiz r h
  rw [heq]
  have hs := axisMove_spec vert horiz r1
  exact ⟨hs.1, hs.2.1, hs.2.2,
    fun hv hh b i hi => planMove_axis_reach ediag vert horiz hv hh b i hi⟩

/-- Witness for C6 with diagonals off and both axes enabled. -/
theorem c6_witness :
    (planMove false [17, 31] [30, 32] rngZeros).1.isDiag = false
    ∧ ∃ first,
        (planMove false [17, 31] [30, 32] rngZeros).1.keys =
          [first,
           (((if (planMove false [17, 31] [30, 32] rngZeros).1.axisVert
                then [17, 31] else [30, 32]).filter
              (fun x => x ≠ first)).headD first)]
        ∧ (((if (planMove false [17, 31] [30, 32] rngZeros).1.axisVert
              then [17, 31] else [30, 32]) : List ℕ) ≠ [] →
            first ∈ ((if (planMove false [17, 31] [30, 32] rngZeros).1.axisVert
              then [17, 31] else [30, 32]) : List ℕ)) :=
  ⟨by decide,
   (c6_axis_move_selection false [17, 31] [30, 32] rngZeros (by decide)).2.2.1⟩
/-! ## Claim theorems: C2 (corrected) -/

theorem teardownCount_cons_of_ne {e : Ev} (h : e ≠ Ev.teardown) (t : Trace) :
    teardownCount (e :: t) = teardownCount t := by
  simp [teardownCount, List.count_cons, Ne.symm h]

theorem teardownCount_runThread (c : Cfg) (env : Env) (sched : Sched) (r : Rng) :
    teardownCount (runThread c env sched r).1 =
      if enabledCount c < 2 then 0
      else if env.ydotooldLaunchOk = false then 0
      else if (loopGo c (vertCodes c) (horizCodes c) (enableDiag c)
                 sched Phase.outer r false).2 = true then 1 else 0 := by
  by_cases h2 : enabledCount c < 2
  · rw [runThread_insufficient env sched r h2, if_pos h2]
    simp [teardownCount, List.count_cons]
  · rw [if_neg h2]
    rcases Bool.eq_false_or_eq_true env.ydotooldLaunchOk with hok | hok
    · rw [hok]
      rcases Bool.eq_false_or_eq_true (loopGo c (vertCodes c) (horizCodes c)
          (enableDiag c) sched Phase.outer r false).2 with hex | hex
      · rw [runThread_exited h2 hok hex, hex]
        simp only [if_true]
        rw [teardownCount_append]
        rw [teardownCount_cons_of_ne (by simp), teardownCount_cons_of_ne (by simp),
            teardownCount_cons_of_ne (by simp), teardownCount_cons_of_ne (by simp),
            teardownCount_cons_of_ne (by simp), teardownCount_loopGo,
            teardownCount_cons_of_ne (by simp), teardownCount_stop_ydotoold]
        simp
      · rw [runThread_truncated h2 hok hex, hex]
        simp only [Bool.false_eq_true, if_false]
        rw [teardownCount_cons_of_ne (by simp), teardownCount_cons_of_ne (by simp),
            teardownCount_cons_of_ne (by simp), teardownCount_cons_of_ne (by simp),
            teardownCount_cons_of_ne (by simp), teardownCount_loopGo]
        simp
    · rw [runThread_noDaemon sched r h2 hok, hok]
      simp only [if_true]
      rw [teardownCount_cons_of_ne (by simp), teardownCount_cons_of_ne (by simp)]
      simp [teardownCount, List.count_cons]

/-- C2 counterexample: a run with at least two keys, a working daemon and a
stop requested at the first flag check.  The loop's own exit path calls
`_stop_ydotoold` (line 406) and `stop()` calls it again (line 289):
teardown is performed twice, not exactly once. -/
theorem c2_counterexample :
    teardownCount (fullRun cfgAll envStd [(false, true)] []).1 = 2
    ∧ teardownCount (fullRun cfgAll envStd [(false, true)] []).1 ≠ 1 := by
  constructor
  · decide
  · decide

/-- C2 as amended: after `stop()` returns on a thread that ran to
completion, supervisor teardown has been invoked exactly once for the two
fatal-at-entry exits (insufficient keys, daemon unavailable) — their early
`return` skips the loop-exit teardown — but exactly twice for a user stop
(once by `_run` at line 406, once by `stop()` at line 289); the second
invocation is harmless because `_stop_ydotoold` is idempotent: it finds no
process handle and no ownership flag, changes nothing and performs no
daemon action beyond the call itself. -/
theorem c2_teardown_count (c : Cfg) (env : Env) (sched : Sched) (r : Rng)
    (h : (runThread c env sched r).2.2 = true) :
    teardownCount (fullRun c env sched r).1 =
      (if enabledCount c < 2 ∨ env.ydotooldLaunchOk = false then 1 else 2)
    ∧ ∀ s : DState,
        stop_ydotoold (stop_ydotoold s).1 = ((stop_ydotoold s).1, [Ev.teardown]) := by
  refine ⟨?_, stop_ydotoold_idem⟩
  unfold fullRun
  rw [teardownCount_append, teardownCount_stop_ydotoold, teardownCount_runThread]
  by_cases h2 : enabledCount c < 2
  · simp [h2]
  · rcases Bool.eq_false_or_eq_true env.ydotooldLaunchOk with hok | hok
    · rcases Bool.eq_false_or_eq_true (loopGo c (vertCodes c) (horizCodes c)
          (enableDiag c) sched Phase.outer r false).2 with hex | hex
      · simp [h2, hok, hex]
      · exfalso
        rw [runThread_truncated h2 hok hex] at h
        simp at h
    · simp [h2, hok]

/-- Witness for C2 (amended) at the user-stop run of the counterexample. -/
theorem c2_witness :
    teardownCount (fullRun cfgAll envStd [(false, true)] []).1 =
      (if enabledCount cfgAll < 2 ∨ envStd.ydotooldLaunchOk = false then 1 else 2)
    ∧ stop_ydotoold (stop_ydotoold dInit).1 = ((stop_ydotoold dInit).1, [Ev.teardown]) :=
  ⟨(c2_teardown_count cfgAll envStd [(false, true)] [] (by decide)).1,
   (c2_teardown_count cfgAll envStd [(false, true)] [] (by decide)).2 dInit⟩
/-! ## Claim theorems: C4 (corrected) -/

theorem reportsOf_stop_ydotoold (s : DState) : reportsOf (stop_ydotoold s).2 = [] := by
  rcases s with ⟨p, sp, st⟩
  by_cases hp : p = some true <;> rcases sp with _ | sock <;> cases st <;>
    simp [stop_ydotoold, reportsOf, hp]

theorem dispatchSeq_stop_ydotoold (s : DState) : dispatchSeq (stop_ydotoold s).2 = [] := by
  rcases s with ⟨p, sp, st⟩
  by_cases hp : p = some true <;> rcases sp with _ | sock <;> cases st <;>
    simp [stop_ydotoold, dispatchSeq, hp]

theorem runThread_exited_projections {c : Cfg} {env : Env} {sched : Sched} {r : Rng}
    (h : ¬ enabledCount c < 2) (hok : env.ydotooldLaunchOk = true)
    (hex : (loopGo c (vertCodes c) (horizCodes c) (enableDiag c)
              sched Phase.outer r false).2 = true) :
    reportsOf (runThread c env sched r).1 =
      "Running" :: reportsOf (loopGo c (vertCodes c) (horizCodes c)
        (enableDiag c) sched Phase.outer r false).1 ++ ["Stopped"]
    ∧ dispatchSeq (runThread c env sched r).1 =
      dispatchSeq (loopGo c (vertCodes c) (horizCodes c)
        (enableDiag c) sched Phase.outer r false).1 := by
  rw [runThread_exited h hok hex]
  have hsh : Ev.ensure :: Ev.rmSocket (socketPathOf env) ::
      Ev.launch (socketPathOf env) env.uid env.gid :: Ev.sleepFixed (1/4) ::
      Ev.report "Running" ::
      (loopGo c (vertCodes c) (horizCodes c) (enableDiag c)
         sched Phase.outer r false).1 ++
      Ev.report "Stopped" :: (stop_ydotoold (dLive env)).2 =
      [Ev.ensure, Ev.rmSocket (socketPathOf env),
       Ev.launch (socketPathOf env) env.uid env.gid, Ev.sleepFixed (1/4),
       Ev.report "Running"] ++
      ((loopGo c (vertCodes c) (horizCodes c) (enableDiag c)
         sched Phase.outer r false).1 ++
       ([Ev.report "Stopped"] ++ (stop_ydotoold (dLive env)).2)) := by
    simp
  rw [hsh]
  constructor
  · rw [reportsOf_append, reportsOf_append, reportsOf_append, reportsOf_stop_ydotoold]
    simp [reportsOf]
  · rw [dispatchSeq_append, dispatchSeq_append, dispatchSeq_append,
        dispatchSeq_stop_ydotoold]
    simp [dispatchSeq]

theorem runThread_truncated_projections {c : Cfg} {env : Env} {sched : Sched} {r : Rng}
    (h : ¬ enabledCount c < 2) (hok : env.ydotooldLaunchOk = true)
    (hex : (loopGo c (vertCodes c) (horizCodes c) (enableDiag c)
              sched Phase.outer r false).2 = false) :
    reportsOf (runThread c env sched r).1 =
      "Running" :: reportsOf (loopGo c (vertCodes c) (horizCodes c)
        (enableDiag c) sched Phase.outer r false).1
    ∧ dispatchSeq (runThread c env sched r).1 =
      dispatchSeq (loopGo c (vertCodes c) (horizCodes c)
        (enableDiag c) sched Phase.outer r false).1 := by
  rw [runThread_truncated h hok hex]
  have hsh : Ev.ensure :: Ev.rmSocket (socketPathOf env) ::
      Ev.launch (socketPathOf env) env.uid env.gid :: Ev.sleepFixed (1/4) ::
      Ev.report "Running" ::
      (loopGo c (vertCodes c) (horizCodes c) (enableDiag c)
         sched Phase.outer r false).1 =
      [Ev.ensure, Ev.rmSocket (socketPathOf env),
       Ev.launch (socketPathOf env) env.uid env.gid, Ev.sleepFixed (1/4),
       Ev.report "Running"] ++
      (loopGo c (vertCodes c) (horizCodes c) (enableDiag c)
         sched Phase.outer r false).1 := by
    simp
  rw [hsh]
  constructor
  · rw [reportsOf_append]
    simp [reportsOf]
  · rw [dispatchSeq_append]
    simp [dispatchSeq]
/-- C4 counterexample: a run with two plain cycles and then a stop delivers
the reports `Running, Running, Running, Stopped` — `status("Running")` at
line 367 fires at the top of every cycle, so consecutive equal reports occur
without any state transition, refuting "invoked only on transitions". -/
theorem c4_counterexample :
    reportsOf (runThread cfgAll envStd schedTwoCycles rngZeros).1 =
      ["Running", "Running", "Running", "Stopped"]
    ∧ ¬ List.Chain' (fun a b => a ≠ b)
        (reportsOf (runThread cfgAll envStd schedTwoCycles rngZeros).1) := by
  have h1 : reportsOf (runThread cfgAll envStd schedTwoCycles rngZeros).1 =
      ["Running", "Running", "Running", "Stopped"] := by decide
  refine ⟨h1, ?_⟩
  rw [h1]
  intro hch
  rw [List.chain'_cons] at hch
  exact hch.1 rfl

/-- C4 as amended: reports are delivered in emission order, `"Paused"` is
reported once per pause stretch (never twice in a row) and a terminal
stop report exactly once per completed run; but `"Running"` is re-reported
at the top of every active cycle — each of the 4-dispatch cycles carries its
own `"Running"` report, so over a non-fatal run the dispatch count is 4
times the number of `"Running"` reports beyond the initial one. -/
theorem c4_reports_per_cycle (c : Cfg) (env : Env) (sched : Sched) (r : Rng) :
    List.Chain' (fun a b => ¬(a = "Paused" ∧ b = "Paused"))
      (reportsOf (runThread c env sched r).1)
    ∧ ((runThread c env sched r).2.2 = true →
        (reportsOf (runThread c env sched r).1).countP (fun s => isStopReport s) = 1)
    ∧ (¬ enabledCount c < 2 → env.ydotooldLaunchOk = true →
        (dispatchSeq (runThread c env sched r).1).length + 4 =
          4 * (reportsOf (runThread c env sched r).1).count "Running") := by
  by_cases h2 : enabledCount c < 2
  · rw [runThread_insufficient env sched r h2]
    refine ⟨by simp [reportsOf], fun _ => by simp [reportsOf, isStopReport],
      fun hcon _ => absurd h2 hcon⟩
  · rcases Bool.eq_false_or_eq_true env.ydotooldLaunchOk with hok | hok
    · have hrep := loopGo_reports c (vertCodes c) (horizCodes c) (enableDiag c)
        sched Phase.outer r false
      have hcnt := loopGo_dispatch_count c (vertCodes c) (horizCodes c) (enableDiag c)
        sched Phase.outer r false
      have hnostop : ∀ x ∈ reportsOf (loopGo c (vertCodes c) (horizCodes c)
          (enableDiag c) sched Phase.outer r false).1, ¬ (isStopReport x = true) := by
        intro x hx
        rcases hrep.1 x hx with h | h <;> rw [h] <;> decide
      have hnorun0 : (reportsOf (loopGo c (vertCodes c) (horizCodes c)
          (enableDiag c) sched Phase.outer r false).1).countP
            (fun s => isStopReport s) = 0 :=
        List.countP_eq_zero.mpr hnostop
      rcases Bool.eq_false_or_eq_true (loopGo c (vertCodes c) (horizCodes c)
          (enableDiag c) sched Phase.outer r false).2 with hex | hex
      · obtain ⟨hre, hde⟩ := runThread_exited_projections h2 hok hex
        refine ⟨?_, fun _ => ?_, fun _ _ => ?_⟩
        · rw [hre]
          rw [List.chain'_append]
          refine ⟨?_, by simp, ?_⟩
          · rw [List.chain'_cons']
            refine ⟨fun y _ hcon => by simp at hcon, hrep.2.1⟩
          · intro x _ y hy
            simp only [List.head?_cons, Option.mem_def, Option.some.injEq] at hy
            rw [← hy]
            intro hcon
            simp at hcon
        · rw [hre]
          rw [List.countP_append, List.countP_cons, hnorun0]
          simp [isStopReport]
        · rw [hre, hde, hcnt]
          rw [List.count_append]
          simp [List.count_cons]
          ring
      · obtain ⟨hre, hde⟩ := runThread_truncated_projections h2 hok hex
        refine ⟨?_, fun hcon => ?_, fun _ _ => ?_⟩
        · rw [hre]
          rw [List.chain'_cons']
          constructor
          · intro y _ hcon
            simp at hcon
          · exact hrep.2.1
        · rw [runThread_truncated h2 hok hex] at hcon
          simp at hcon
        · rw [hre, hde, hcnt]
          rw [List.count_cons]
          simp
          ring
    · rw [runThread_noDaemon sched r h2 hok]
      refine ⟨by simp [reportsOf], fun _ => by simp [reportsOf, isStopReport],
        fun _ hcon => by rw [hok] at hcon; cases hcon⟩

/-- Witness for C4 (amended) at the two-cycle run of the counterexample. -/
theorem c4_witness :
    List.Chain' (fun a b => ¬(a = "Paused" ∧ b = "Paused"))
      (reportsOf (runThread cfgAll envStd schedTwoCycles rngZeros).1)
    ∧ (reportsOf (runThread cfgAll envStd schedTwoCycles rngZeros).1).countP
        (fun s => isStopReport s) = 1
    ∧ (dispatchSeq (runThread cfgAll envStd schedTwoCycles rngZeros).1).length + 4 =
        4 * (reportsOf (runThread cfgAll envStd schedTwoCycles rngZeros).1).count
          "Running" :=
  ⟨(c4_reports_per_cycle cfgAll envStd schedTwoCycles rngZeros).1,
   (c4_reports_per_cycle cfgAll envStd schedTwoCycles rngZeros).2.1 (by decide),
   (c4_reports_per_cycle cfgAll envStd schedTwoCycles rngZeros).2.2 (by decide) rfl⟩
/-! ## Claim C10: idempotence of `normalize_config`

Strategy: characterise the outputs of `normalize_config (·) DEFAULT_CONFIG`
by a canonical-shape predicate `Canon`; show every `ok` output is canonical
and every canonical dict is a fixed point. -/

/-- The twelve known top-level entries, in `DEFAULT_CONFIG` order, with
arbitrary values. -/
def mkTop (kv ed mind maxd pmn pmx ie ic imn imx de dc : JVal) : JDict :=
  [("keys", kv), ("enable_diagonals", ed), ("min_delay", mind),
   ("max_delay", maxd), ("press_min", pmn), ("press_max", pmx),
   ("idle_enabled", ie), ("idle_chance", ic), ("idle_min", imn),
   ("idle_max", imx), ("double_tap_enabled", de), ("double_tap_chance", dc)]

/-- Extra (unknown) entries: keys disjoint from the known twelve and
duplicate-free. -/
def extrasOK (extras : JDict) : Prop :=
  (∀ k ∈ extras.map Prod.fst, k ∉ topNames) ∧ (extras.map Prod.fst).Nodup

/-- One direction entry after coercion: boolean `enabled`, integer `code`,
string `label`. -/
def innerCanon (ikd : JDict) : Prop :=
  (∃ b, dLookup "enabled" ikd = some (JVal.jbool b))
  ∧ (∃ n, dLookup "code" ikd = some (JVal.jint n))
  ∧ (∃ s2, dLookup "label" ikd = some (JVal.jstr s2))

/-- All four direction entries are coerced dicts. -/
def keysCanon (kd : JDict) : Prop :=
  ∀ k ∈ wasd, ∃ ikd, dLookup k kd = some (JVal.jobj ikd) ∧ innerCanon ikd

/-- Canonical form of a `normalize_config (·) DEFAULT_CONFIG` output. -/
def Canon (d : JDict) : Prop :=
  ∃ (kd : JDict) (ed : Bool) (mind maxd pmn pmx : ℚ) (ie : Bool) (ic : ℤ)
    (imn imx : ℚ) (de : Bool) (dc : ℤ) (extras : JDict),
    d = mkTop (JVal.jobj kd) (JVal.jbool ed) (JVal.jfloat mind)
          (JVal.jfloat maxd) (JVal.jfloat pmn) (JVal.jfloat pmx)
          (JVal.jbool ie) (JVal.jint ic) (JVal.jfloat imn) (JVal.jfloat imx)
          (JVal.jbool de) (JVal.jint dc) ++ extras
    ∧ keysCanon kd
    ∧ mind ≤ maxd ∧ pmn ≤ pmx ∧ imn ≤ imx ∧ 2 ≤ ic ∧ 2 ≤ dc
    ∧ extrasOK extras

/-- The shape preserved by the merge fold: the known twelve entries in
order (any values), then disjoint duplicate-free extras. -/
def MergeShape (d : JDict) : Prop :=
  ∃ (kv ed mind maxd pmn pmx ie ic imn imx de dc : JVal) (extras : JDict),
    d = mkTop kv ed mind maxd pmn pmx ie ic imn imx de dc ++ extras
    ∧ extrasOK extras

theorem extrasOK_update {extras : JDict} {k : String} (v : JVal)
    (hk : k ∉ topNames) (h : extrasOK extras) : extrasOK (dUpdate k v extras) := by
  obtain ⟨h1, h2⟩ := h
  unfold extrasOK
  rw [keys_dUpdate]
  by_cases hmem : k ∈ extras.map Prod.fst
  · rw [if_pos hmem]
    exact ⟨h1, h2⟩
  · rw [if_neg hmem]
    constructor
    · intro k2 hk2
      rcases List.mem_append.mp hk2 with hin | hin
      · exact h1 k2 hin
      · rw [List.mem_singleton.mp hin]
        exact hk
    · rw [List.nodup_append]
      exact ⟨h2, List.nodup_singleton k, by simpa using hmem⟩

theorem mergeShape_default : MergeShape DEFAULT_CONFIG := by
  refine ⟨JVal.jobj
     [("W", JVal.jobj [("code", JVal.jint 17), ("enabled", JVal.jbool true),
        ("label", JVal.jstr "W")]),
      ("A", JVal.jobj [("code", JVal.jint 30), ("enabled", JVal.jbool true),
        ("label", JVal.jstr "A")]),
      ("S", JVal.jobj [("code", JVal.jint 31), ("enabled", JVal.jbool true),
        ("label", JVal.jstr "S")]),
      ("D", JVal.jobj [("code", JVal.jint 32), ("enabled", JVal.jbool true),
        ("label", JVal.jstr "D")])],
    JVal.jbool true, JVal.jfloat (1/4), JVal.jfloat (9/10),
    JVal.jfloat (3/50), JVal.jfloat (1/5), JVal.jbool true, JVal.jint 10,
    JVal.jfloat 1, JVal.jfloat (7/2), JVal.jbool true, JVal.jint 8, [], ?_, ?_⟩
  · simp [DEFAULT_CONFIG, mkTop]
  · exact ⟨by simp, by simp⟩

theorem mergeShape_update (k : String) (v : JVal) {d : JDict}
    (h : MergeShape d) : MergeShape (dUpdate k v d) := by
  obtain ⟨kv, ed, mind, maxd, pmn, pmx, ie, ic, imn, imx, de, dc, extras, hdef, hex⟩ := h
  subst hdef
  by_cases h1 : k = "keys"
  · subst h1
    exact ⟨v, ed, mind, maxd, pmn, pmx, ie, ic, imn, imx, de, dc, extras,
      by simp [mkTop, dUpdate], hex⟩
  · by_cases h2 : k = "enable_diagonals"
    · subst h2
      exact ⟨kv, v, mind, maxd, pmn, pmx, ie, ic, imn, imx, de, dc, extras,
        by simp [mkTop, dUpdate], hex⟩
    · by_cases h3 : k = "min_delay"
      · subst h3
        exact ⟨kv, ed, v, maxd, pmn, pmx, ie, ic, imn, imx, de, dc, extras,
          by simp [mkTop, dUpdate], hex⟩
      · by_cases h4 : k = "max_delay"
        · subst h4
          exact ⟨kv, ed, mind, v, pmn, pmx, ie, ic, imn, imx, de, dc, extras,
            by simp [mkTop, dUpdate], hex⟩
        · by_cases h5 : k = "press_min"
          · subst h5
            exact ⟨kv, ed, mind, maxd, v, pmx, ie, ic, imn, imx, de, dc, extras,
              by simp [mkTop, dUpdate], hex⟩
          · by_cases h6 : k = "press_max"
            · subst h6
              exact ⟨kv, ed, mind, maxd, pmn, v, ie, ic, imn, imx, de, dc, extras,
                by simp [mkTop, dUpdate], hex⟩
            · by_cases h7 : k = "idle_enabled"
              · subst h7
                exact ⟨kv, ed, mind, maxd, pmn, pmx, v, ic, imn, imx, de, dc, extras,
                  by simp [mkTop, dUpdate], hex⟩
              · by_cases h8 : k = "idle_chance"
                · subst h8
                  exact ⟨kv, ed, mind, maxd, pmn, pmx, ie, v, imn, imx, de, dc, extras,
                    by simp [mkTop, dUpdate], hex⟩
                · by_cases h9 : k = "idle_min"
                  · subst h9
                    exact ⟨kv, ed, mind, maxd, pmn, pmx, ie, ic, v, imx, de, dc, extras,
                      by simp [mkTop, dUpdate], hex⟩
                  · by_cases h10 : k = "idle_max"
                    · subst h10
                      exact ⟨kv, ed, mind, maxd, pmn, pmx, ie, ic, imn, v, de, dc, extras,
                        by simp [mkTop, dUpdate], hex⟩
                    · by_cases h11 : k = "double_tap_enabled"
                      · subst h11
                        exact ⟨kv, ed, mind, maxd, pmn, pmx, ie, ic, imn, imx, v, dc, extras,
                          by simp [mkTop, dUpdate], hex⟩
                      · by_cases h12 : k = "double_tap_chance"
                        · subst h12
                          exact ⟨kv, ed, mind, maxd, pmn, pmx, ie, ic, imn, imx, de, v, extras,
                            by simp [mkTop, dUpdate], hex⟩
                        · have hk : k ∉ topNames := by
                            simp [topNames, h1, h2, h3, h4, h5, h6, h7, h8, h9, h10, h11, h12]
                          refine ⟨kv, ed, mind, maxd, pmn, pmx, ie, ic, imn, imx, de, dc,
                            dUpdate k v extras, ?_, extrasOK_update v hk hex⟩
                          have n1 : ("keys" : String) ≠ k := fun h => h1 h.symm
                          have n2 : ("enable_diagonals" : String) ≠ k := fun h => h2 h.symm
                          have n3 : ("min_delay" : String) ≠ k := fun h => h3 h.symm
                          have n4 : ("max_delay" : String) ≠ k := fun h => h4 h.symm
                          have n5 : ("press_min" : String) ≠ k := fun h => h5 h.symm
                          have n6 : ("press_max" : String) ≠ k := fun h => h6 h.symm
                          have n7 : ("idle_enabled" : String) ≠ k := fun h => h7 h.symm
                          have n8 : ("idle_chance" : String) ≠ k := fun h => h8 h.symm
                          have n9 : ("idle_min" : String) ≠ k := fun h => h9 h.symm
                          have n10 : ("idle_max" : String) ≠ k := fun h => h10 h.symm
                          have n11 : ("double_tap_enabled" : String) ≠ k := fun h => h11 h.symm
                          have n12 : ("double_tap_chance" : String) ≠ k := fun h => h12 h.symm
                          simp [mkTop, dUpdate, n1, n2, n3, n4, n5, n6, n7, n8, n9,
                            n10, n11, n12]

theorem mergeShape_dMerge (cfg : JDict) : MergeShape (dMerge DEFAULT_CONFIG cfg) := by
  have hgen : ∀ (l : JDict) (d : JDict), MergeShape d →
      MergeShape (l.foldl (fun m kv => dUpdate kv.1 kv.2 m) d) := by
    intro l
    induction l with
    | nil => intro d h; exact h
    | cons hd tl ih =>
      intro d h
      exact ih _ (mergeShape_update hd.1 hd.2 h)
  exact hgen cfg DEFAULT_CONFIG mergeShape_default
theorem fixKey_lookup_ne {fb : JDict} {k k2 : String} (h : k2 ≠ k) (kd : JDict) :
    dLookup k (fixKey fb kd k2) = dLookup k kd := by
  unfold fixKey
  split
  case h_1 ikd heq =>
    exact dLookup_dUpdate_ne h _ _
  case h_2 hne =>
    split
    case h_1 fkd heq2 =>
      exact dLookup_dUpdate_ne h _ _
    case h_2 hne2 =>
      exact dLookup_dUpdate_ne h _ _

theorem innerCanon_triple (ikd : JDict) (b : Bool) (n : ℤ) (s2 : String) :
    innerCanon (dUpdate "label" (JVal.jstr s2)
      (dUpdate "code" (JVal.jint n) (dUpdate "enabled" (JVal.jbool b) ikd))) := by
  refine ⟨⟨b, ?_⟩, ⟨n, ?_⟩, ⟨s2, ?_⟩⟩
  · rw [dLookup_dUpdate_ne (by decide), dLookup_dUpdate_ne (by decide),
      dLookup_dUpdate_self]
  · rw [dLookup_dUpdate_ne (by decide), dLookup_dUpdate_self]
  · rw [dLookup_dUpdate_self]

theorem fixKey_jobj {fb : JDict} {k : String} (kd : JDict) {fkd : JDict}
    (hfb : fbKeyObjVal fb k = JVal.jobj fkd) :
    ∃ ikd, dLookup k (fixKey fb kd k) = some (JVal.jobj ikd) := by
  unfold fixKey
  split
  case h_1 ikd heq =>
    exact ⟨_, dLookup_dUpdate_self k _ kd⟩
  case h_2 hne =>
    split
    case h_1 fkd heq2 =>
      exact ⟨_, dLookup_dUpdate_self k _ kd⟩
    case h_2 v hne2 =>
      rw [hfb] at hne2
      exact absurd rfl (hne2 fkd)

theorem coerceKey_lookup_ne {fb : JDict} {k k2 : String} (h : k2 ≠ k) (kd : JDict) :
    dLookup k (coerceKey fb kd k2) = dLookup k kd := by
  unfold coerceKey
  split <;> simp [dLookup_dUpdate_ne h]

theorem coerceKey_canon {fb : JDict} {k : String} {kd : JDict} {ikd : JDict}
    (hl : dLookup k kd = some (JVal.jobj ikd)) :
    ∃ ikd2, dLookup k (coerceKey fb kd k) = some (JVal.jobj ikd2)
      ∧ innerCanon ikd2 := by
  unfold coerceKey
  rw [hl]
  exact ⟨_, dLookup_dUpdate_self k _ kd, innerCanon_triple ikd _ _ _⟩
theorem fbKeyObjVal_w :
    fbKeyObjVal DEFAULT_CONFIG "W" = JVal.jobj
      [("code", JVal.jint 17), ("enabled", JVal.jbool true), ("label", JVal.jstr "W")] := rfl

theorem fbKeyObjVal_a :
    fbKeyObjVal DEFAULT_CONFIG "A" = JVal.jobj
      [("code", JVal.jint 30), ("enabled", JVal.jbool true), ("label", JVal.jstr "A")] := rfl

theorem fbKeyObjVal_s :
    fbKeyObjVal DEFAULT_CONFIG "S" = JVal.jobj
      [("code", JVal.jint 31), ("enabled", JVal.jbool true), ("label", JVal.jstr "S")] := rfl

theorem fbKeyObjVal_d :
    fbKeyObjVal DEFAULT_CONFIG "D" = JVal.jobj
      [("code", JVal.jint 32), ("enabled", JVal.jbool true), ("label", JVal.jstr "D")] := rfl

/-- Starting from any `merged["keys"]` dict, the repair loop followed by the
coercion loop leaves all four direction entries canonical. -/
theorem keysCanon_pipeline (kd0 : JDict) :
    keysCanon (wasd.foldl (coerceKey DEFAULT_CONFIG)
      (wasd.foldl (fixKey DEFAULT_CONFIG) kd0)) := by
  simp only [wasd, List.foldl]
  set kW := fixKey DEFAULT_CONFIG kd0 "W" with hkW
  set kA := fixKey DEFAULT_CONFIG kW "A" with hkA
  set kS := fixKey DEFAULT_CONFIG kA "S" with hkS
  set kD := fixKey DEFAULT_CONFIG kS "D" with hkD
  obtain ⟨iW, hW⟩ := fixKey_jobj kd0 fbKeyObjVal_w
  obtain ⟨iA, hA⟩ := fixKey_jobj kW fbKeyObjVal_a
  obtain ⟨iS, hS⟩ := fixKey_jobj kA fbKeyObjVal_s
  obtain ⟨iD, hD⟩ := fixKey_jobj kS fbKeyObjVal_d
  have hW1 : dLookup "W" kD = some (JVal.jobj iW) := by
    rw [hkD, fixKey_lookup_ne (by decide), hkS, fixKey_lookup_ne (by decide),
      hkA, fixKey_lookup_ne (by decide)]
    exact hW
  have hA1 : dLookup "A" kD = some (JVal.jobj iA) := by
    rw [hkD, fixKey_lookup_ne (by decide), hkS, fixKey_lookup_ne (by decide)]
    exact hA
  have hS1 : dLookup "S" kD = some (JVal.jobj iS) := by
    rw [hkD, fixKey_lookup_ne (by decide)]
    exact hS
  have hD1 : dLookup "D" kD = some (JVal.jobj iD) := hD
  set cW := coerceKey DEFAULT_CONFIG kD "W" with hcW
  set cA := coerceKey DEFAULT_CONFIG cW "A" with hcA
  set cS := coerceKey DEFAULT_CONFIG cA "S" with hcS
  set cD := coerceKey DEFAULT_CONFIG cS "D" with hcD
  obtain ⟨jW, hjW, hcanW⟩ := coerceKey_canon hW1
  have hA2 : dLookup "A" cW = some (JVal.jobj iA) := by
    rw [hcW, coerceKey_lookup_ne (by decide)]
    exact hA1
  obtain ⟨jA, hjA, hcanA⟩ := coerceKey_canon hA2
  have hS2 : dLookup "S" cA = some (JVal.jobj iS) := by
    rw [hcA, coerceKey_lookup_ne (by decide), hcW, coerceKey_lookup_ne (by decide)]
    exact hS1
  obtain ⟨jS, hjS, hcanS⟩ := coerceKey_canon hS2
  have hD2 : dLookup "D" cS = some (JVal.jobj iD) := by
    rw [hcS, coerceKey_lookup_ne (by decide), hcA, coerceKey_lookup_ne (by decide),
      hcW, coerceKey_lookup_ne (by decide)]
    exact hD1
  obtain ⟨jD, hjD, hcanD⟩ := coerceKey_canon hD2
  have hjW2 : dLookup "W" cD = some (JVal.jobj jW) := by
    rw [hcD, coerceKey_lookup_ne (by decide), hcS, coerceKey_lookup_ne (by decide),
      hcA, coerceKey_lookup_ne (by decide)]
    exact hjW
  have hjA2 : dLookup "A" cD = some (JVal.jobj jA) := by
    rw [hcD, coerceKey_lookup_ne (by decide), hcS, coerceKey_lookup_ne (by decide)]
    exact hjA
  have hjS2 : dLookup "S" cD = some (JVal.jobj jS) := by
    rw [hcD, coerceKey_lookup_ne (by decide)]
    exact hjS
  intro k hk
  simp only [wasd, List.mem_cons, List.mem_singleton] at hk
  rcases hk with rfl | rfl | rfl | hk
  · exact ⟨jW, hjW2, hcanW⟩
  · exact ⟨jA, hjA2, hcanA⟩
  · exact ⟨jS, hjS2, hcanS⟩
  · rcases hk with rfl | hk
    · exact ⟨jD, hjD, hcanD⟩
    · cases hk
theorem dUpdate_keys_mkTop (kv2 kv ed mind maxd pmn pmx ie ic imn imx de dc : JVal)
    (extras : JDict) :
    dUpdate "keys" kv2 (mkTop kv ed mind maxd pmn pmx ie ic imn imx de dc ++ extras) =
    mkTop kv2 ed mind maxd pmn pmx ie ic imn imx de dc ++ extras := by
  simp [mkTop, dUpdate]

theorem topCoerce_mkTop (kv ed mind maxd pmn pmx ie ic imn imx de dc : JVal)
    (extras : JDict) :
    topCoerce (mkTop kv ed mind maxd pmn pmx ie ic imn imx de dc ++ extras) =
    mkTop kv (JVal.jbool (pyB ed true)) (JVal.jfloat (pyF mind (1/4)))
      (JVal.jfloat (pyF maxd (9/10))) (JVal.jfloat (pyF pmn (3/50)))
      (JVal.jfloat (pyF pmx (1/5))) (JVal.jbool (pyB ie true))
      (JVal.jint (pyI ic 10)) (JVal.jfloat (pyF imn 1))
      (JVal.jfloat (pyF imx (7/2))) (JVal.jbool (pyB de true))
      (JVal.jint (pyI dc 8)) ++ extras := by
  simp [topCoerce, mkTop, dUpdate, dGetD, dLookup]

theorem clampPair_delay_mkTop (kv ed pmn pmx ie ic imn imx de dc : JVal)
    (a b : ℚ) (extras : JDict) :
    clampPair "min_delay" "max_delay"
      (mkTop kv ed (JVal.jfloat a) (JVal.jfloat b) pmn pmx ie ic imn imx de dc ++ extras) =
    mkTop kv ed (JVal.jfloat a) (JVal.jfloat (if b < a then a else b))
      pmn pmx ie ic imn imx de dc ++ extras := by
  by_cases hc : b < a <;> simp [clampPair, mkTop, dLookup, dUpdate, hc]

theorem clampPair_press_mkTop (kv ed mind maxd ie ic imn imx de dc : JVal)
    (a b : ℚ) (extras : JDict) :
    clampPair "press_min" "press_max"
      (mkTop kv ed mind maxd (JVal.jfloat a) (JVal.jfloat b) ie ic imn imx de dc ++ extras) =
    mkTop kv ed mind maxd (JVal.jfloat a) (JVal.jfloat (if b < a then a else b))
      ie ic imn imx de dc ++ extras := by
  by_cases hc : b < a <;> simp [clampPair, mkTop, dLookup, dUpdate, hc]

theorem clampPair_idle_mkTop (kv ed mind maxd pmn pmx ie ic de dc : JVal)
    (a b : ℚ) (extras : JDict) :
    clampPair "idle_min" "idle_max"
      (mkTop kv ed mind maxd pmn pmx ie ic (JVal.jfloat a) (JVal.jfloat b) de dc ++ extras) =
    mkTop kv ed mind maxd pmn pmx ie ic (JVal.jfloat a)
      (JVal.jfloat (if b < a then a else b)) de dc ++ extras := by
  by_cases hc : b < a <;> simp [clampPair, mkTop, dLookup, dUpdate, hc]

theorem clampChance_idle_mkTop (kv ed mind maxd pmn pmx ie imn imx de dc : JVal)
    (n : ℤ) (extras : JDict) :
    clampChance "idle_chance"
      (mkTop kv ed mind maxd pmn pmx ie (JVal.jint n) imn imx de dc ++ extras) =
    mkTop kv ed mind maxd pmn pmx ie (JVal.jint (max 2 n)) imn imx de dc ++ extras := by
  simp [clampChance, mkTop, dLookup, dUpdate]

theorem clampChance_double_mkTop (kv ed mind maxd pmn pmx ie ic imn imx de : JVal)
    (n : ℤ) (extras : JDict) :
    clampChance "double_tap_chance"
      (mkTop kv ed mind maxd pmn pmx ie ic imn imx de (JVal.jint n) ++ extras) =
    mkTop kv ed mind maxd pmn pmx ie ic imn imx de (JVal.jint (max 2 n)) ++ extras := by
  simp [clampChance, mkTop, dLookup, dUpdate]

theorem dSetdefault_keys_mkTop (kv ed mind maxd pmn pmx ie ic imn imx de dc v : JVal)
    (extras : JDict) :
    dSetdefault "keys" v (mkTop kv ed mind maxd pmn pmx ie ic imn imx de dc ++ extras) =
    mkTop kv ed mind maxd pmn pmx ie ic imn imx de dc ++ extras := by
  simp [dSetdefault, mkTop, dLookup]

theorem dLookup_keys_mkTop (kv ed mind maxd pmn pmx ie ic imn imx de dc : JVal)
    (extras : JDict) :
    dLookup "keys" (mkTop kv ed mind maxd pmn pmx ie ic imn imx de dc ++ extras) =
      some kv := by
  simp [mkTop, dLookup]
set_option maxHeartbeats 1600000 in
/-- Every `ok` output of `normalize_config (·) DEFAULT_CONFIG` is in
canonical form. -/
theorem normalize_ok_canon {cfg out : JDict}
    (h : normalize_config cfg DEFAULT_CONFIG = Except.ok out) : Canon out := by
  obtain ⟨kv, ed, mind, maxd, pmn, pmx, ie, ic, imn, imx, de, dc, extras, hdef, hex⟩ :=
    mergeShape_dMerge cfg
  cases kv with
  | jobj kd0 =>
    have hcomp : normalize_config cfg DEFAULT_CONFIG = Except.ok
        (clampChance "double_tap_chance" (clampChance "idle_chance"
          (clampPair "idle_min" "idle_max" (clampPair "press_min" "press_max"
            (clampPair "min_delay" "max_delay"
              (dUpdate "keys"
                (JVal.jobj (wasd.foldl (coerceKey DEFAULT_CONFIG)
                  (wasd.foldl (fixKey DEFAULT_CONFIG) kd0)))
                (topCoerce (dUpdate "keys"
                  (JVal.jobj (wasd.foldl (fixKey DEFAULT_CONFIG) kd0))
                  (mkTop (JVal.jobj kd0) ed mind maxd pmn pmx ie ic imn imx de dc
                    ++ extras))))))))) := by
      simp only [normalize_config]
      rw [hdef, dSetdefault_keys_mkTop, dLookup_keys_mkTop]
    rw [dUpdate_keys_mkTop, topCoerce_mkTop, dUpdate_keys_mkTop,
        clampPair_delay_mkTop, clampPair_press_mkTop, clampPair_idle_mkTop,
        clampChance_idle_mkTop, clampChance_double_mkTop] at hcomp
    rw [h] at hcomp
    injection hcomp with h2
    subst h2
    refine ⟨wasd.foldl (coerceKey DEFAULT_CONFIG)
        (wasd.foldl (fixKey DEFAULT_CONFIG) kd0),
      pyB ed true, pyF mind (1/4),
      (if pyF maxd (9/10) < pyF mind (1/4) then pyF mind (1/4) else pyF maxd (9/10)),
      pyF pmn (3/50),
      (if pyF pmx (1/5) < pyF pmn (3/50) then pyF pmn (3/50) else pyF pmx (1/5)),
      pyB ie true, max 2 (pyI ic 10), pyF imn 1,
      (if pyF imx (7/2) < pyF imn 1 then pyF imn 1 else pyF imx (7/2)),
      pyB de true, max 2 (pyI dc 8), extras, rfl,
      keysCanon_pipeline kd0, ?_, ?_, ?_, le_max_left 2 _, le_max_left 2 _, hex⟩
    · by_cases hc : pyF maxd (9/10) < pyF mind (1/4)
      · rw [if_pos hc]
      · rw [if_neg hc]
        exact le_of_not_lt hc
    · by_cases hc : pyF pmx (1/5) < pyF pmn (3/50)
      · rw [if_pos hc]
      · rw [if_neg hc]
        exact le_of_not_lt hc
    · by_cases hc : pyF imx (7/2) < pyF imn 1
      · rw [if_pos hc]
      · rw [if_neg hc]
        exact le_of_not_lt hc
  | jnull =>
    simp only [normalize_config] at h
    rw [hdef, dSetdefault_keys_mkTop, dLookup_keys_mkTop] at h
    simp at h
  | jbool b =>
    simp only [normalize_config] at h
    rw [hdef, dSetdefault_keys_mkTop, dLookup_keys_mkTop] at h
    simp at h
  | jint n =>
    simp only [normalize_config] at h
    rw [hdef, dSetdefault_keys_mkTop, dLookup_keys_mkTop] at h
    simp at h
  | jfloat q =>
    simp only [normalize_config] at h
    rw [hdef, dSetdefault_keys_mkTop, dLookup_keys_mkTop] at h
    simp at h
  | jstr s2 =>
    simp only [normalize_config] at h
    rw [hdef, dSetdefault_keys_mkTop, dLookup_keys_mkTop] at h
    simp at h
  | jarr l =>
    simp only [normalize_config] at h
    rw [hdef, dSetdefault_keys_mkTop, dLookup_keys_mkTop] at h
    simp at h
theorem map_fst_mkTop (kv ed mind maxd pmn pmx ie ic imn imx de dc : JVal) :
    (mkTop kv ed mind maxd pmn pmx ie ic imn imx de dc).map Prod.fst = topNames := by
  simp [mkTop, topNames]

theorem dMerge_default_mkTop (kv ed mind maxd pmn pmx ie ic imn imx de dc : JVal) :
    dMerge DEFAULT_CONFIG (mkTop kv ed mind maxd pmn pmx ie ic imn imx de dc) =
      mkTop kv ed mind maxd pmn pmx ie ic imn imx de dc := by
  simp [dMerge, mkTop, DEFAULT_CONFIG, List.foldl, dUpdate]

/-- Re-merging a canonical dict over `DEFAULT_CONFIG` reproduces it
exactly (known entries in place, extras appended in order). -/
theorem dMerge_canonical (kv ed mind maxd pmn pmx ie ic imn imx de dc : JVal)
    {extras : JDict} (hex : extrasOK extras) :
    dMerge DEFAULT_CONFIG
      (mkTop kv ed mind maxd pmn pmx ie ic imn imx de dc ++ extras) =
    mkTop kv ed mind maxd pmn pmx ie ic imn imx de dc ++ extras := by
  unfold dMerge
  rw [List.foldl_append]
  have h1 : List.foldl (fun m kv2 => dUpdate kv2.1 kv2.2 m) DEFAULT_CONFIG
      (mkTop kv ed mind maxd pmn pmx ie ic imn imx de dc) =
      mkTop kv ed mind maxd pmn pmx ie ic imn imx de dc := dMerge_default_mkTop _ _ _ _ _ _ _ _ _ _ _ _
  rw [h1]
  have h2 : ∀ k ∈ extras.map Prod.fst,
      dLookup k (mkTop kv ed mind maxd pmn pmx ie ic imn imx de dc) = none := by
    intro k hk
    apply dLookup_eq_none
    rw [map_fst_mkTop]
    exact hex.1 k hk
  exact dMerge_extras h2 hex.2

theorem fixKey_canon_id {fb : JDict} {kd : JDict} {k : String} {ikd : JDict}
    (hl : dLookup k kd = some (JVal.jobj ikd)) (hc : innerCanon ikd) :
    fixKey fb kd k = kd := by
  obtain ⟨⟨b, hb⟩, ⟨n, hn⟩, ⟨s2, hs⟩⟩ := hc
  unfold fixKey
  split
  case h_1 i heq =>
    rw [hl] at heq
    injection heq with heq2
    injection heq2 with heq3
    subst heq3
    have e1 : dSetdefault "code" (fbKeyField fb k "code") ikd = ikd := by
      simp [dSetdefault, hn]
    have e2 : dSetdefault "enabled" (fbKeyField fb k "enabled") ikd = ikd := by
      simp [dSetdefault, hb]
    have e3 : dSetdefault "label" (fbKeyLabel fb k) ikd = ikd := by
      simp [dSetdefault, hs]
    rw [e1, e2, e3, dUpdate_self hl]
  case h_2 hne => exact absurd hl (hne ikd)

theorem coerceKey_canon_id {fb : JDict} {kd : JDict} {k : String} {ikd : JDict}
    (hl : dLookup k kd = some (JVal.jobj ikd)) (hc : innerCanon ikd) :
    coerceKey fb kd k = kd := by
  obtain ⟨⟨b, hb⟩, ⟨n, hn⟩, ⟨s2, hs⟩⟩ := hc
  unfold coerceKey
  split
  case h_1 i heq =>
    rw [hl] at heq
    injection heq with heq2
    injection heq2 with heq3
    subst heq3
    simp only [dGetD, hb, hn, hs, Option.getD_some, pyB, pyI, pyS,
      dUpdate_self hb, dUpdate_self hn, dUpdate_self hs, dUpdate_self hl]
  case h_2 hne => exact absurd hl (hne ikd)

theorem foldl_fixKey_canon_id {kd : JDict} (hkc : keysCanon kd) :
    wasd.foldl (fixKey DEFAULT_CONFIG) kd = kd := by
  obtain ⟨iW, hW, cW⟩ := hkc "W" (by simp [wasd])
  obtain ⟨iA, hA, cA⟩ := hkc "A" (by simp [wasd])
  obtain ⟨iS, hS, cS⟩ := hkc "S" (by simp [wasd])
  obtain ⟨iD, hD, cD⟩ := hkc "D" (by simp [wasd])
  simp only [wasd, List.foldl]
  rw [fixKey_canon_id hW cW, fixKey_canon_id hA cA, fixKey_canon_id hS cS,
    fixKey_canon_id hD cD]

theorem foldl_coerceKey_canon_id {kd : JDict} (hkc : keysCanon kd) :
    wasd.foldl (coerceKey DEFAULT_CONFIG) kd = kd := by
  obtain ⟨iW, hW, cW⟩ := hkc "W" (by simp [wasd])
  obtain ⟨iA, hA, cA⟩ := hkc "A" (by simp [wasd])
  obtain ⟨iS, hS, cS⟩ := hkc "S" (by simp [wasd])
  obtain ⟨iD, hD, cD⟩ := hkc "D" (by simp [wasd])
  simp only [wasd, List.foldl]
  rw [coerceKey_canon_id hW cW, coerceKey_canon_id hA cA, coerceKey_canon_id hS cS,
    coerceKey_canon_id hD cD]

/-- Every canonical dict is a fixed point of
`normalize_config (·) DEFAULT_CONFIG`. -/
theorem canon_fixed_point {d : JDict} (hc : Canon d) :
    normalize_config d DEFAULT_CONFIG = Except.ok d := by
  obtain ⟨kd, ed, mind, maxd, pmn, pmx, ie, ic, imn, imx, de, dc, extras,
    hdef, hkc, h1, h2, h3, h4, h5, hex⟩ := hc
  subst hdef
  have hm := dMerge_canonical (JVal.jobj kd) (JVal.jbool ed) (JVal.jfloat mind)
    (JVal.jfloat maxd) (JVal.jfloat pmn) (JVal.jfloat pmx) (JVal.jbool ie)
    (JVal.jint ic) (JVal.jfloat imn) (JVal.jfloat imx) (JVal.jbool de)
    (JVal.jint dc) hex
  have hcomp : normalize_config
      (mkTop (JVal.jobj kd) (JVal.jbool ed) (JVal.jfloat mind)
        (JVal.jfloat maxd) (JVal.jfloat pmn) (JVal.jfloat pmx) (JVal.jbool ie)
        (JVal.jint ic) (JVal.jfloat imn) (JVal.jfloat imx) (JVal.jbool de)
        (JVal.jint dc) ++ extras) DEFAULT_CONFIG = Except.ok
      (clampChance "double_tap_chance" (clampChance "idle_chance"
        (clampPair "idle_min" "idle_max" (clampPair "press_min" "press_max"
          (clampPair "min_delay" "max_delay"
            (dUpdate "keys"
              (JVal.jobj (wasd.foldl (coerceKey DEFAULT_CONFIG)
                (wasd.foldl (fixKey DEFAULT_CONFIG) kd)))
              (topCoerce (dUpdate "keys"
                (JVal.jobj (wasd.foldl (fixKey DEFAULT_CONFIG) kd))
                (mkTop (JVal.jobj kd) (JVal.jbool ed) (JVal.jfloat mind)
                  (JVal.jfloat maxd) (JVal.jfloat pmn) (JVal.jfloat pmx)
                  (JVal.jbool ie) (JVal.jint ic) (JVal.jfloat imn)
                  (JVal.jfloat imx) (JVal.jbool de) (JVal.jint dc)
                  ++ extras))))))))) := by
    simp only [normalize_config]
    rw [hm, dSetdefault_keys_mkTop, dLookup_keys_mkTop]
  rw [foldl_fixKey_canon_id hkc, foldl_coerceKey_canon_id hkc,
      dUpdate_keys_mkTop, topCoerce_mkTop] at hcomp
  simp only [pyB, pyF, pyI] at hcomp
  rw [dUpdate_keys_mkTop, clampPair_delay_mkTop, clampPair_press_mkTop,
      clampPair_idle_mkTop, clampChance_idle_mkTop,
      clampChance_double_mkTop] at hcomp
  rw [if_neg (not_lt.mpr h1), if_neg (not_lt.mpr h2), if_neg (not_lt.mpr h3),
      max_eq_right h4, max_eq_right h5] at hcomp
  exact hcomp

/-- C10: `normalize_config` with fallback `DEFAULT_CONFIG` is idempotent —
running it a second time on any successful output changes nothing — and a
single application already establishes the range invariants:
`min_delay ≤ max_delay`, `press_min ≤ press_max`, `idle_min ≤ idle_max`
(all stored as floats), and both chance fields are integers `≥ 2`. -/
theorem c10_normalize_idempotent (cfg : JDict) :
    ((normalize_config cfg DEFAULT_CONFIG).bind
        fun d => normalize_config d DEFAULT_CONFIG) =
      normalize_config cfg DEFAULT_CONFIG
    ∧ ∀ d, normalize_config cfg DEFAULT_CONFIG = Except.ok d →
        (∃ a b, dLookup "min_delay" d = some (JVal.jfloat a)
          ∧ dLookup "max_delay" d = some (JVal.jfloat b) ∧ a ≤ b)
        ∧ (∃ a b, dLookup "press_min" d = some (JVal.jfloat a)
          ∧ dLookup "press_max" d = some (JVal.jfloat b) ∧ a ≤ b)
        ∧ (∃ a b, dLookup "idle_min" d = some (JVal.jfloat a)
          ∧ dLookup "idle_max" d = some (JVal.jfloat b) ∧ a ≤ b)
        ∧ (∃ n, dLookup "idle_chance" d = some (JVal.jint n) ∧ 2 ≤ n)
        ∧ (∃ n, dLookup "double_tap_chance" d = some (JVal.jint n) ∧ 2 ≤ n) := by
  constructor
  · cases h : normalize_config cfg DEFAULT_CONFIG with
    | error e => rfl
    | ok d =>
      show normalize_config d DEFAULT_CONFIG = Except.ok d
      exact canon_fixed_point (normalize_ok_canon h)
  · intro d h
    obtain ⟨kd, ed, mind, maxd, pmn, pmx, ie, ic, imn, imx, de, dc, extras,
      hdef, hkc, h1, h2, h3, h4, h5, hex⟩ := normalize_ok_canon h
    subst hdef
    refine ⟨⟨mind, maxd, ?_, ?_, h1⟩, ⟨pmn, pmx, ?_, ?_, h2⟩,
      ⟨imn, imx, ?_, ?_, h3⟩, ⟨ic, ?_, h4⟩, ⟨dc, ?_, h5⟩⟩ <;>
    simp [mkTop, dLookup]

/-- Witness: at the empty user config, a second application of
`normalize_config` is a no-op and the normalized double-tap chance is an
integer at least 2. -/
theorem c10_witness :
    ∃ d, normalize_config [] DEFAULT_CONFIG = Except.ok d
      ∧ ((normalize_config [] DEFAULT_CONFIG).bind
          fun d2 => normalize_config d2 DEFAULT_CONFIG) =
        normalize_config [] DEFAULT_CONFIG
      ∧ (∃ n, dLookup "double_tap_chance" d = some (JVal.jint n) ∧ 2 ≤ n) := by
  have h2 := (c10_normalize_idempotent []).2 _ rfl
  exact ⟨_, rfl, (c10_normalize_idempotent []).1, h2.2.2.2.2⟩
